import Mathlib

/-!
Shallow embedding of the `textcanvas` rendering core
(`src/textcanvas/textcanvas.py` and `src/textcanvas/color.py`), together
with theorems settling the specification claims about it.

Conventions of the embedding:
* Python `list`s of `list`s become `List (List _)`; the mutating writes
  `buffer[y][x] = v` become the functional update `set2`.
* Python `int` coordinates become `Int`; list indices are converted with
  `Int.toNat` only after the non-negativity guaranteed by the bounds checks.
* Methods that mutate `self` become functions `TextCanvas → ... → TextCanvas`.
* The unbounded `while True` of `_bresenham_line` becomes a fuel-indexed
  loop returning `Option TextCanvas` (`none` = fuel exhausted); theorems
  show the loop reaches its `break` within the fuel supplied at the call
  site, which models termination of the Python loop.
-/

/-! ## Color (`src/textcanvas/color.py`) -/

inductive ColorMode where
  | noColor
  | colorRgb
  | color4bit
  | color8bit
deriving DecidableEq

/-- `ESC` constant of `color.py`. -/
def ESC : String := "\x1b["

/-- `RESET` constant of `color.py`. -/
def RESET : String := "\x1b[0m"

/-- `PLACEHOLDER` constant of `color.py` (an open and a close brace). -/
def PLACEHOLDER : String := "\x7b\x7d"

/-- The fields of the Python `Color` class (`__init__`). -/
structure Color where
  mode : ColorMode := ColorMode.noColor
  colorRgb : Option (Int × Int × Int) := none
  bgColorRgb : Option (Int × Int × Int) := none
  color4bit : Option Int := none
  bgColor4bit : Option Int := none
  color8bit : Option Int := none
  bgColor8bit : Option Int := none
  isBold : Bool := false
  isItalic : Bool := false
  isUnderlined : Bool := false
deriving DecidableEq

/-- `Color()` — the no-color sentinel. -/
def Color.new : Color := {}

/-- Decimal digit character, mirroring Python `str(int)` rendering digit by digit. -/
def digitChar (n : Nat) : Char := Char.ofNat (48 + n % 10)

/-- Decimal rendering of a natural number (most significant digit first);
models Python f-string rendering of a non-negative `int`. -/
def natReprAux : Nat → Nat → List Char
  | 0, _ => []
  | fuel + 1, n => if n < 10 then [digitChar n] else natReprAux fuel (n / 10) ++ [digitChar (n % 10)]

def natRepr (n : Nat) : String := String.mk (natReprAux (n + 1) n)

/-- Decimal rendering of an `Int`; models Python f-string rendering of an `int`. -/
def intRepr (n : Int) : String := if n < 0 then "-" ++ natRepr n.natAbs else natRepr n.toNat

/-- `Color._has_display_attributes`. -/
def Color.hasDisplayAttributes (c : Color) : Bool := c.isBold || c.isItalic || c.isUnderlined

/-- `Color._is_empty`. -/
def Color.isEmptyColor (c : Color) : Bool :=
  decide (c.mode = ColorMode.noColor) && !c.hasDisplayAttributes

/-- `Color._has_colors`. -/
def Color.hasColors (c : Color) : Bool := !decide (c.mode = ColorMode.noColor)

/-- `Color._format_display_attributes`. -/
def Color.formatDisplayAttributes (c : Color) : String :=
  if !c.hasDisplayAttributes then "0"
  else
    String.intercalate ";"
      ((if c.isBold then ["1"] else []) ++
       (if c.isItalic then ["3"] else []) ++
       (if c.isUnderlined then ["4"] else []))

/-- `Color._format_colors_rgb`. -/
def Color.formatColorsRgb (c : Color) : String :=
  (match c.colorRgb with
   | some (r, g, b) =>
     "38;2;" ++ intRepr r ++ ";" ++ intRepr g ++ ";" ++ intRepr b ++
       (if c.bgColorRgb.isSome then "m" ++ ESC else "")
   | none => "") ++
  (match c.bgColorRgb with
   | some (r, g, b) => "48;2;" ++ intRepr r ++ ";" ++ intRepr g ++ ";" ++ intRepr b
   | none => "")

/-- `Color._format_colors_4bit`. -/
def Color.formatColors4bit (c : Color) : String :=
  (match c.color4bit with
   | some n => intRepr n ++ (if c.bgColor4bit.isSome then ";" else "")
   | none => "") ++
  (match c.bgColor4bit with
   | some n => intRepr n
   | none => "")

/-- `Color._format_colors_8bit`. -/
def Color.formatColors8bit (c : Color) : String :=
  (match c.color8bit with
   | some n => "38;5;" ++ intRepr n ++ (if c.bgColor8bit.isSome then "m" ++ ESC else "")
   | none => "") ++
  (match c.bgColor8bit with
   | some n => "48;5;" ++ intRepr n
   | none => "")

/-- The escape sequence emitted before the formatted text: everything
`Color.to_string` builds in front of the placeholder. -/
def Color.sequenceStr (c : Color) : String :=
  ESC ++ c.formatDisplayAttributes ++
    (if c.hasColors then ";" else "") ++
    (match c.mode with
     | ColorMode.colorRgb => c.formatColorsRgb
     | ColorMode.color4bit => c.formatColors4bit
     | ColorMode.color8bit => c.formatColors8bit
     | ColorMode.noColor => "") ++
    "m"

/-- `Color.to_string`. -/
def Color.toStringT (c : Color) : String :=
  if c.isEmptyColor then PLACEHOLDER else c.sequenceStr ++ PLACEHOLDER ++ RESET

/-- `Color.format`. In the source this is `to_string().replace(PLACEHOLDER, string)`;
the template built by `to_string` contains exactly one occurrence of the placeholder
(all its other characters are escape, digit, `;`, `-` or `m` characters, and an
open brace occurs only in the placeholder itself), so the replacement splices
`s` at that one spot. -/
def Color.format (c : Color) (s : String) : String :=
  if c.isEmptyColor then s else c.sequenceStr ++ s ++ RESET

/-! ## Nested-list helpers (Python 2D list reads/writes) -/

/-- Read `m[i][j]`, with default `d` out of range (in range this matches Python). -/
def get2 {α : Type} (m : List (List α)) (i j : Nat) (d : α) : α :=
  (m.getD i []).getD j d

/-- Write `m[i][j] = v` functionally (no-op out of range; in range this matches Python). -/
def set2 {α : Type} (m : List (List α)) (i j : Nat) (v : α) : List (List α) :=
  m.set i ((m.getD i []).set j v)

/-! ## TextCanvas data model (`src/textcanvas/textcanvas.py`) -/

/-- `Surface` dataclass. Output and screen dimensions are natural numbers
(the constructor guarantees positivity, and screen = output × (2, 4)). -/
structure Surface where
  width : Nat
  height : Nat
deriving DecidableEq

/-- `BRAILLE_UNICODE_0`. -/
def BRAILLE_UNICODE_0 : Nat := 0x2800

/-- A 2×4 block of pixels, row by row — the `PixelBlock` type alias. -/
abbrev PixelBlock := (Bool × Bool) × (Bool × Bool) × (Bool × Bool) × (Bool × Bool)

/-- The `BrailleMap` type alias. -/
abbrev BrailleMap := (Nat × Nat) × (Nat × Nat) × (Nat × Nat) × (Nat × Nat)

/-- `BRAILLE_UNICODE_OFFSET_MAP`. -/
def BRAILLE_UNICODE_OFFSET_MAP : BrailleMap :=
  ((0x1, 0x8), (0x2, 0x10), (0x4, 0x20), (0x40, 0x80))

/-- The state owned by a `TextCanvas` instance. -/
structure TextCanvas where
  output : Surface
  screen : Surface
  buffer : List (List Bool)
  colorBuffer : List (List Color)
  textBuffer : List (List String)
  isInverted : Bool
  color : Color
deriving DecidableEq

/-- Body of `TextCanvas.__init__` after the size check: output surface,
screen surface at 2× / 4× resolution, eagerly allocated all-off pixel
buffer, empty (inactive) color and text buffers. -/
def mkCanvas (width height : Nat) : TextCanvas where
  output := ⟨width, height⟩
  screen := ⟨width * 2, height * 4⟩
  buffer := List.replicate (height * 4) (List.replicate (width * 2) false)
  colorBuffer := []
  textBuffer := []
  isInverted := false
  color := Color.new

/-- `TextCanvas(width, height)` with `_check_canvas_size`: raises `ValueError`
for non-positive dimensions. -/
def TextCanvas.new (width height : Int) : Except String TextCanvas :=
  if width ≤ 0 || height ≤ 0 then Except.error "TextCanvas minimal size is 1×1."
  else Except.ok (mkCanvas width.toNat height.toNat)

/-- `_check_output_bounds`. -/
def TextCanvas.checkOutputBounds (c : TextCanvas) (x y : Int) : Bool :=
  decide (0 ≤ x) && decide (x < (c.output.width : Int)) &&
  decide (0 ≤ y) && decide (y < (c.output.height : Int))

/-- `_check_screen_bounds`. -/
def TextCanvas.checkScreenBounds (c : TextCanvas) (x y : Int) : Bool :=
  decide (0 ≤ x) && decide (x < (c.screen.width : Int)) &&
  decide (0 ≤ y) && decide (y < (c.screen.height : Int))

/-- `is_colorized` property: the color buffer is non-empty. -/
def TextCanvas.isColorized (c : TextCanvas) : Bool := !c.colorBuffer.isEmpty

/-- `is_textual` property: the text buffer is non-empty. -/
def TextCanvas.isTextual (c : TextCanvas) : Bool := !c.textBuffer.isEmpty

/-- `_init_color_buffer`. -/
def TextCanvas.initColorBuffer (c : TextCanvas) : TextCanvas :=
  { c with colorBuffer :=
      List.replicate c.output.height (List.replicate c.output.width Color.new) }

/-- `_init_text_buffer`. -/
def TextCanvas.initTextBuffer (c : TextCanvas) : TextCanvas :=
  { c with textBuffer :=
      List.replicate c.output.height (List.replicate c.output.width "") }

/-- `set_color`. -/
def TextCanvas.setColor (c : TextCanvas) (color : Color) : TextCanvas :=
  let c := if !c.isColorized then c.initColorBuffer else c
  { c with color := color }

/-- `get_pixel`. -/
def TextCanvas.getPixel (c : TextCanvas) (x y : Int) : Option Bool :=
  if c.checkScreenBounds x y then some (get2 c.buffer y.toNat x.toNat false) else none

/-- `_color_pixel`. -/
def TextCanvas.colorPixel (c : TextCanvas) (x y : Int) : TextCanvas :=
  { c with colorBuffer := set2 c.colorBuffer (y.toNat / 4) (x.toNat / 2) c.color }

/-- `_decolor_pixel`. -/
def TextCanvas.decolorPixel (c : TextCanvas) (x y : Int) : TextCanvas :=
  { c with colorBuffer := set2 c.colorBuffer (y.toNat / 4) (x.toNat / 2) Color.new }

/-- The state actually written by `set_pixel`: negated when `is_inverted`. -/
def TextCanvas.effectiveState (c : TextCanvas) (state : Bool) : Bool :=
  if c.isInverted then !state else state

/-- `set_pixel`. The Python method writes the (possibly inverted) state into
the buffer and then tests `self.is_colorized`; the buffer write leaves the
color buffer untouched, so testing `is_colorized` before the write, as done
here, is the same canvas. -/
def TextCanvas.setPixel (c : TextCanvas) (x y : Int) (state : Bool) : TextCanvas :=
  if !c.checkScreenBounds x y then c
  else if c.isColorized then
    if c.effectiveState state then
      TextCanvas.colorPixel
        { c with buffer := set2 c.buffer y.toNat x.toNat (c.effectiveState state) } x y
    else
      TextCanvas.decolorPixel
        { c with buffer := set2 c.buffer y.toNat x.toNat (c.effectiveState state) } x y
  else
    { c with buffer := set2 c.buffer y.toNat x.toNat (c.effectiveState state) }

/-- `iter_buffer`: all screen coordinates `(x, y)`, row-major (y outer). -/
def TextCanvas.iterBuffer (c : TextCanvas) : List (Nat × Nat) :=
  (List.range c.screen.height).flatMap (fun y => (List.range c.screen.width).map (fun x => (x, y)))

/-- `fill`: turn every pixel of the buffer on, bypassing `set_pixel`. -/
def TextCanvas.fill (c : TextCanvas) : TextCanvas :=
  { c with buffer := c.iterBuffer.foldl (fun b xy => set2 b xy.2 xy.1 true) c.buffer }

/-- `invert`. -/
def TextCanvas.invert (c : TextCanvas) : TextCanvas := { c with isInverted := !c.isInverted }

/-- `_draw_char`. -/
def TextCanvas.drawChar (c : TextCanvas) (ch : Char) (x y : Int) (merge : Bool) : TextCanvas :=
  if !c.checkOutputBounds x y then c
  else if ch = ' ' then
    if merge then c
    else { c with textBuffer := set2 c.textBuffer y.toNat x.toNat "" }
  else
    { c with textBuffer := set2 c.textBuffer y.toNat x.toNat (c.color.format (String.singleton ch)) }

/-- `draw_text`: lazily activate the text buffer, then draw the characters
at consecutive x positions. -/
def TextCanvas.drawText (c : TextCanvas) (text : String) (x y : Int) : TextCanvas :=
  let c := if !c.isTextual then c.initTextBuffer else c
  (text.data.foldl (fun (acc : TextCanvas × Int) ch => (acc.1.drawChar ch acc.2 y false, acc.2 + 1))
    (c, x)).1

/-- `merge_text`: like `draw_text` but spaces leave the cell untouched. -/
def TextCanvas.mergeText (c : TextCanvas) (text : String) (x y : Int) : TextCanvas :=
  let c := if !c.isTextual then c.initTextBuffer else c
  (text.data.foldl (fun (acc : TextCanvas × Int) ch => (acc.1.drawChar ch acc.2 y true, acc.2 + 1))
    (c, x)).1

/-- `_pixel_block_to_braille_char`, with the double loop over the block
unrolled position by position in the same order. -/
def pixelBlockToBrailleChar (pb : PixelBlock) : Char :=
  let m := BRAILLE_UNICODE_OFFSET_MAP
  let v := BRAILLE_UNICODE_0
  let v := if pb.1.1 then v + m.1.1 else v
  let v := if pb.1.2 then v + m.1.2 else v
  let v := if pb.2.1.1 then v + m.2.1.1 else v
  let v := if pb.2.1.2 then v + m.2.1.2 else v
  let v := if pb.2.2.1.1 then v + m.2.2.1.1 else v
  let v := if pb.2.2.1.2 then v + m.2.2.1.2 else v
  let v := if pb.2.2.2.1 then v + m.2.2.2.1 else v
  let v := if pb.2.2.2.2 then v + m.2.2.2.2 else v
  Char.ofNat v

/-- A 2D list with `h` rows all of width `w`. -/
def grid2Sized {α : Type} (m : List (List α)) (h w : Nat) : Prop :=
  m.length = h ∧ ∀ row ∈ m, row.length = w

instance {α : Type} (m : List (List α)) (h w : Nat) : Decidable (grid2Sized m h w) := by
  unfold grid2Sized
  infer_instance


/-! ## Size invariants of a canvas -/

/-- The pixel buffer has exactly the screen dimensions (established by
`_init_buffer` and preserved by every operation). -/
def TextCanvas.bufferSized (c : TextCanvas) : Prop :=
  grid2Sized c.buffer c.screen.height c.screen.width

/-- The color buffer has exactly the output dimensions (established by
`_init_color_buffer`). -/
def TextCanvas.colorSized (c : TextCanvas) : Prop :=
  grid2Sized c.colorBuffer c.output.height c.output.width

/-- The text buffer has exactly the output dimensions (established by
`_init_text_buffer`). -/
def TextCanvas.textSized (c : TextCanvas) : Prop :=
  grid2Sized c.textBuffer c.output.height c.output.width

/-- The screen surface is 2× wider and 4× higher than the output surface
(established by the constructor). -/
def TextCanvas.dimsOk (c : TextCanvas) : Prop :=
  c.screen.width = 2 * c.output.width ∧ c.screen.height = 4 * c.output.height

instance (c : TextCanvas) : Decidable c.bufferSized := by
  unfold TextCanvas.bufferSized
  infer_instance

instance (c : TextCanvas) : Decidable c.colorSized := by
  unfold TextCanvas.colorSized
  infer_instance

instance (c : TextCanvas) : Decidable c.textSized := by
  unfold TextCanvas.textSized
  infer_instance

instance (c : TextCanvas) : Decidable c.dimsOk := by
  unfold TextCanvas.dimsOk
  infer_instance

/-- The sum of the per-position offset values of the pixels that are on,
taken from `BRAILLE_UNICODE_OFFSET_MAP` — the specification's description
of the encoding. -/
def blockOffsetSum (pb : PixelBlock) : Nat :=
  (if pb.1.1 then BRAILLE_UNICODE_OFFSET_MAP.1.1 else 0) +
  (if pb.1.2 then BRAILLE_UNICODE_OFFSET_MAP.1.2 else 0) +
  (if pb.2.1.1 then BRAILLE_UNICODE_OFFSET_MAP.2.1.1 else 0) +
  (if pb.2.1.2 then BRAILLE_UNICODE_OFFSET_MAP.2.1.2 else 0) +
  (if pb.2.2.1.1 then BRAILLE_UNICODE_OFFSET_MAP.2.2.1.1 else 0) +
  (if pb.2.2.1.2 then BRAILLE_UNICODE_OFFSET_MAP.2.2.1.2 else 0) +
  (if pb.2.2.2.1 then BRAILLE_UNICODE_OFFSET_MAP.2.2.2.1 else 0) +
  (if pb.2.2.2.2 then BRAILLE_UNICODE_OFFSET_MAP.2.2.2.2 else 0)

/-- Sample 4-bit red draw color used by concrete witnesses. -/
def sampleColor : Color := { mode := ColorMode.color4bit, color4bit := some 31 }

/-- Concrete colorized canvas with pixel (1, 1) on — same output cell as (0, 0). -/
def c2Canvas : TextCanvas := ((mkCanvas 2 2).setColor sampleColor).setPixel 1 1 true

/-- Concrete colorized, inverted canvas. -/
def c9Canvas : TextCanvas := ((mkCanvas 1 1).setColor sampleColor).invert


/-! ## Line drawing (`stroke_line` / `_bresenham_line`) -/

/-- Python `range(a, b + 1)` over integers: the integers from `a` to `b`
inclusive (empty when `b < a`). -/
def rangeIncl (a b : Int) : List Int :=
  (List.range (b + 1 - a).toNat).map (fun (i : Nat) => a + (i : Int))

/-- The `while True` loop of `_bresenham_line` (general case), with explicit
fuel; `none` means the fuel ran out before the loop reached one of its
`break` statements. One iteration: plot the current pixel; stop if the end
point is reached; otherwise step `x1` when `2 * error >= dy` and `y1` when
`2 * error <= dx` (both tests against the error value read at the top of the
iteration), with the two inner safety `break`s of the source kept as written. -/
def TextCanvas.bresenhamLoop (x2 y2 sx sy dx dy : Int) :
    Nat → TextCanvas → Int → Int → Int → Option TextCanvas
  | 0, _, _, _, _ => none
  | fuel + 1, c, x1, y1, error =>
    if x1 = x2 ∧ y1 = y2 then some (c.setPixel x1 y1 true)
    else if 2 * error ≥ dy ∧ x1 = x2 then some (c.setPixel x1 y1 true)
    else if 2 * error ≤ dx ∧ y1 = y2 then some (c.setPixel x1 y1 true)
    else
      TextCanvas.bresenhamLoop x2 y2 sx sy dx dy fuel (c.setPixel x1 y1 true)
        (if 2 * error ≥ dy then x1 + sx else x1)
        (if 2 * error ≤ dx then y1 + sy else y1)
        ((if 2 * error ≥ dy then error + dy else error) + (if 2 * error ≤ dx then dx else 0))

/-- `_bresenham_line`: vertical and horizontal fast paths (`dx == 0`,
`dy == 0`, as inclusive range fills), and the general stepping loop with
fuel `|x2 - x1| + |y2 - y1| + 1`, which the endpoint theorem shows is enough
for the loop to reach its `break`. -/
def TextCanvas.bresenhamLine (c : TextCanvas) (x1 y1 x2 y2 : Int) : TextCanvas :=
  if x2 - x1 = 0 then
    (rangeIncl (min y1 y2) (max y1 y2)).foldl (fun c y => c.setPixel x1 y true) c
  else if y2 - y1 = 0 then
    (rangeIncl (min x1 x2) (max x1 x2)).foldl (fun c x => c.setPixel x y1 true) c
  else
    (TextCanvas.bresenhamLoop x2 y2 (if x1 < x2 then 1 else -1) (if y1 < y2 then 1 else -1)
        |x2 - x1| (-|y2 - y1|) ((x2 - x1).natAbs + (y2 - y1).natAbs + 1) c x1 y1
        (|x2 - x1| + -|y2 - y1|)).getD c

/-- `stroke_line`. -/
def TextCanvas.strokeLine (c : TextCanvas) (x1 y1 x2 y2 : Int) : TextCanvas :=
  c.bresenhamLine x1 y1 x2 y2

/-! ## Triangles (needed by the filled n-gon) -/

/-- `_is_point_in_triangle`. The Python version works on floats, but every
value fed to it is an integer (vertices and bounding-box points), on which
the float arithmetic is exact, so the test is embedded over `Int`. -/
def isPointInTriangle (point : Int × Int)
    (t : (Int × Int) × (Int × Int) × (Int × Int)) : Bool :=
  let s := (t.1.1 - t.2.2.1) * (point.2 - t.2.2.2) - (t.1.2 - t.2.2.2) * (point.1 - t.2.2.1)
  let tt := (t.2.1.1 - t.1.1) * (point.2 - t.1.2) - (t.2.1.2 - t.1.2) * (point.1 - t.1.1)
  if (decide (s < 0) != decide (tt < 0)) && !decide (s = 0) && !decide (tt = 0) then false
  else
    let d := (t.2.2.1 - t.2.1.1) * (point.2 - t.2.1.2) - (t.2.2.2 - t.2.1.2) * (point.1 - t.2.1.1)
    decide (d = 0) || (decide (d < 0) == decide (s + tt ≤ 0))

/-- `stroke_triangle`. -/
def TextCanvas.strokeTriangle (c : TextCanvas) (x1 y1 x2 y2 x3 y3 : Int) : TextCanvas :=
  ((c.strokeLine x1 y1 x2 y2).strokeLine x2 y2 x3 y3).strokeLine x3 y3 x1 y1

/-- `fill_triangle`: stroke the outline, then set every bounding-box point
that passes the barycentric test. -/
def TextCanvas.fillTriangle (c : TextCanvas) (x1 y1 x2 y2 x3 y3 : Int) : TextCanvas :=
  (rangeIncl (min x1 (min x2 x3)) (max x1 (max x2 x3))).foldl
    (fun c x =>
      (rangeIncl (min y1 (min y2 y3)) (max y1 (max y2 y3))).foldl
        (fun c y =>
          if isPointInTriangle (x, y) ((x1, y1), (x2, y2), (x3, y3)) then c.setPixel x y true
          else c)
        c)
    (c.strokeTriangle x1 y1 x2 y2 x3 y3)

/-- `cx` property: center-X of the pixel screen. -/
def TextCanvas.cx (c : TextCanvas) : Int := (c.screen.width / 2 : Nat)

/-- `cy` property: center-Y of the pixel screen. -/
def TextCanvas.cy (c : TextCanvas) : Int := (c.screen.height / 2 : Nat)

/-! ## N-gons -/

/-- The inner `join_vertices` closure of `_ngon`. -/
def TextCanvas.joinVertices (c : TextCanvas) (fill : Bool) (p q : Int × Int) : TextCanvas :=
  if fill then c.fillTriangle c.cx c.cy p.1 p.2 q.1 q.2
  else c.strokeLine p.1 p.2 q.1 q.2

/-- `_ngon`. The vertex list produced by `_compute_ngon_vertices` is computed
with floating-point `math.cos` / `math.sin`; it is therefore taken here as an
explicit parameter `vertices`, so that the statements about `_ngon` hold for
every vertex list that computation could produce (the real list has exactly
`sides` entries, hence is non-empty when the side check passes). The Python
method raises `ValueError` before computing anything when `sides < 3`,
leaving `self` untouched; this is modelled by returning the original canvas
together with `some message`; a successful call returns the drawn canvas and
`none`. -/
def TextCanvas.ngon (c : TextCanvas) (sides : Int) (vertices : List (Int × Int))
    (fill : Bool) : TextCanvas × Option String :=
  if sides < 3 then
    (c, some ("Minimum 3 sides needed to draw an n-gon, but only " ++ intRepr sides ++
      " requested."))
  else
    match vertices with
    | [] => (c, none)
    | first :: rest =>
      let state := rest.foldl
        (fun (acc : TextCanvas × (Int × Int)) v => (acc.1.joinVertices fill acc.2 v, v))
        (c, first)
      (state.1.joinVertices fill state.2 first, none)

/-- `stroke_ngon`. -/
def TextCanvas.strokeNgon (c : TextCanvas) (sides : Int) (vertices : List (Int × Int)) :
    TextCanvas × Option String :=
  c.ngon sides vertices false

/-- `fill_ngon`. -/
def TextCanvas.fillNgon (c : TextCanvas) (sides : Int) (vertices : List (Int × Int)) :
    TextCanvas × Option String :=
  c.ngon sides vertices true

/-! ## Canvas compositing (`draw_canvas` / `merge_canvas`) -/

/-- The pixel-and-color copy of one iteration of
`draw_canvas_onto_canvas` (already inside the screen-bounds check): copy the
source pixel unless merging over an off pixel, and alongside an actual pixel
copy also copy the source cell's color when the source is colorized. -/
def TextCanvas.compositeCopyStep (self source : TextCanvas) (offsetX offsetY : Int)
    (merge : Bool) (xy : Nat × Nat) : TextCanvas :=
  if !merge || get2 source.buffer xy.2 xy.1 false then
    if source.isColorized then
      { self with
        buffer := set2 self.buffer (offsetY + (xy.2 : Int)).toNat (offsetX + (xy.1 : Int)).toNat
          (get2 source.buffer xy.2 xy.1 false),
        colorBuffer := set2 self.colorBuffer ((offsetY + (xy.2 : Int)).toNat / 4)
          ((offsetX + (xy.1 : Int)).toNat / 2)
          (get2 source.colorBuffer (xy.2 / 4) (xy.1 / 2) Color.new) }
    else
      { self with
        buffer := set2 self.buffer (offsetY + (xy.2 : Int)).toNat (offsetX + (xy.1 : Int)).toNat
          (get2 source.buffer xy.2 xy.1 false) }
  else self

/-- The text copy of one iteration of `draw_canvas_onto_canvas`: copy the
source text cell unless merging over an empty entry. -/
def TextCanvas.compositeTextStep (self source : TextCanvas) (offsetX offsetY : Int)
    (merge : Bool) (xy : Nat × Nat) : TextCanvas :=
  if source.isTextual then
    if !merge || !(get2 source.textBuffer (xy.2 / 4) (xy.1 / 2) "" == "") then
      { self with
        textBuffer := set2 self.textBuffer ((offsetY + (xy.2 : Int)).toNat / 4)
          ((offsetX + (xy.1 : Int)).toNat / 2) (get2 source.textBuffer (xy.2 / 4) (xy.1 / 2) "") }
    else self
  else self

/-- One iteration of the loop of `draw_canvas_onto_canvas` for the source
pixel `xy`: skip when the destination coordinate is out of the destination's
screen bounds, else do the pixel/color copy then the text copy. -/
def TextCanvas.compositePixelStep (self source : TextCanvas) (offsetX offsetY : Int)
    (merge : Bool) (xy : Nat × Nat) : TextCanvas :=
  if self.checkScreenBounds (offsetX + (xy.1 : Int)) (offsetY + (xy.2 : Int)) then
    TextCanvas.compositeTextStep
      (TextCanvas.compositeCopyStep self source offsetX offsetY merge xy)
      source offsetX offsetY merge xy
  else self

/-- The lazy buffer activation at the top of `draw_canvas_onto_canvas`.
(The color-buffer activation does not change `is_textual`, so performing the
text-buffer activation second, as here, matches the source.) -/
def TextCanvas.compositeInit (self source : TextCanvas) : TextCanvas :=
  if !self.isTextual && source.isTextual then
    (if !self.isColorized && source.isColorized then self.initColorBuffer else self).initTextBuffer
  else
    (if !self.isColorized && source.isColorized then self.initColorBuffer else self)

/-- `draw_canvas_onto_canvas`: iterate over every source screen pixel in
row-major order. -/
def TextCanvas.drawCanvasOntoCanvas (self source : TextCanvas) (dx dy : Int)
    (merge : Bool) : TextCanvas :=
  source.iterBuffer.foldl
    (fun s xy => TextCanvas.compositePixelStep s source dx dy merge xy)
    (TextCanvas.compositeInit self source)

/-- `draw_canvas` (override mode). -/
def TextCanvas.drawCanvas (self source : TextCanvas) (dx dy : Int) : TextCanvas :=
  self.drawCanvasOntoCanvas source dx dy false

/-- `merge_canvas` (merge mode). -/
def TextCanvas.mergeCanvas (self source : TextCanvas) (dx dy : Int) : TextCanvas :=
  self.drawCanvasOntoCanvas source dx dy true

/-! ## Serialization (`to_string`) -/

/-- Python `range(0, n, step)` for positive step. -/
def stepRange (n step : Nat) : List Nat :=
  (List.range ((n + step - 1) / step)).map (fun i => i * step)

/-- The 2×4 pixel block whose top-left screen pixel is `(x, y)`. -/
def TextCanvas.blockAt (c : TextCanvas) (x y : Nat) : PixelBlock :=
  ((get2 c.buffer y x false, get2 c.buffer y (x + 1) false),
   (get2 c.buffer (y + 1) x false, get2 c.buffer (y + 1) (x + 1) false),
   (get2 c.buffer (y + 2) x false, get2 c.buffer (y + 2) (x + 1) false),
   (get2 c.buffer (y + 3) x false, get2 c.buffer (y + 3) (x + 1) false))

/-- `_iter_buffer_by_blocks_lrtb`: blocks left-right then top-bottom. -/
def TextCanvas.iterBufferByBlocksLrtb (c : TextCanvas) : List PixelBlock :=
  (stepRange c.screen.height 4).flatMap
    (fun y => (stepRange c.screen.width 2).map (fun x => c.blockAt x y))

/-- `_get_text_char`. -/
def TextCanvas.getTextChar (c : TextCanvas) (x y : Nat) : String :=
  if c.isTextual then get2 c.textBuffer y x "" else ""

/-- `_color_pixel_char`. -/
def TextCanvas.colorPixelChar (c : TextCanvas) (x y : Nat) (pixelChar : String) : String :=
  if c.isColorized then (get2 c.colorBuffer y x Color.new).format pixelChar else pixelChar

/-- The string emitted for one output cell by `to_string`: the text-layer
entry when non-empty, else the color-wrapped Braille glyph of the pixel
block. -/
def TextCanvas.cellStr (c : TextCanvas) (x y : Nat) (pb : PixelBlock) : String :=
  if c.getTextChar x y ≠ "" then c.getTextChar x y
  else c.colorPixelChar x y (String.singleton (pixelBlockToBrailleChar pb))

/-- The accumulation loop of `to_string`: for block number `i` (output cell
`(i % width, i / width)`) emit the cell string, and a newline after each
full row. -/
def TextCanvas.toStringAux (c : TextCanvas) : List PixelBlock → Nat → String
  | [], _ => ""
  | pb :: rest, i =>
    c.cellStr (i % c.output.width) (i / c.output.width) pb ++
    (if (i + 1) % c.output.width = 0 then "\n" else "") ++
    c.toStringAux rest (i + 1)

/-- The cell strings of one output row (no newlines), starting at block
number `i`. -/
def TextCanvas.rowStrAux (c : TextCanvas) : List PixelBlock → Nat → String
  | [], _ => ""
  | pb :: rest, i =>
    c.cellStr (i % c.output.width) (i / c.output.width) pb ++ c.rowStrAux rest (i + 1)

/-- `to_string`. -/
def TextCanvas.toString (c : TextCanvas) : String :=
  c.toStringAux c.iterBufferByBlocksLrtb 0

/-! ## ANSI-aware string measurement (for the serialization-shape claim) -/

/-- Strip ANSI escape sequences from a character list: outside an escape
(`inEsc = false`) an `ESC` byte starts one, inside an escape everything up
to and including the terminating `m` is dropped. -/
def stripAnsiSt : Bool → List Char → List Char
  | _, [] => []
  | true, ch :: rest => if ch = 'm' then stripAnsiSt false rest else stripAnsiSt true rest
  | false, ch :: rest =>
    if ch = '\x1b' then stripAnsiSt true rest else ch :: stripAnsiSt false rest

/-- Number of visible glyphs of a string, ANSI escape sequences disregarded. -/
def visibleLength (s : String) : Nat := (stripAnsiSt false s.data).length

/-- Whether every ANSI escape opened in the list is terminated by an `m`
inside the list (scanning from state `inEsc`). -/
def ansiOkSt : Bool → List Char → Bool
  | inEsc, [] => !inEsc
  | true, ch :: rest => if ch = 'm' then ansiOkSt false rest else ansiOkSt true rest
  | false, ch :: rest => if ch = '\x1b' then ansiOkSt true rest else ansiOkSt false rest

/-- Split a character list at newlines: `n` newline characters yield `n + 1`
chunks. -/
def splitLines : List Char → List (List Char)
  | [] => [[]]
  | ch :: rest =>
    if ch = '\n' then [] :: splitLines rest
    else
      match splitLines rest with
      | l :: ls => (ch :: l) :: ls
      | [] => [[ch]]

/-- A well-behaved rendered cell: all escapes are closed, no newline, and
exactly one glyph once escapes are disregarded. -/
def cellOk (s : String) : Prop :=
  ansiOkSt false s.data = true ∧ s.data.count '\n' = 0 ∧
    (stripAnsiSt false s.data).length = 1

instance (s : String) : Decidable (cellOk s) := by
  unfold cellOk
  infer_instance

/-- Characters that may appear inside an escape sequence body: anything that
is not `ESC`, not the terminator `m`, and not a newline. -/
def plainAnsiChars (l : List Char) : Bool :=
  l.all (fun ch => !decide (ch = '\x1b') && !decide (ch = 'm') && !decide (ch = '\n'))

/-! ## Concrete canvases used by counterexamples and witnesses -/

/-- Destination canvas for the merge-color counterexample: colorized, with
its single output cell painted `sampleColor` (pixel (0, 0) on). -/
def c1Dest : TextCanvas := ((mkCanvas 1 1).setColor sampleColor).setPixel 0 0 true

/-- Source canvas for the merge-color counterexample: colorized, every pixel
off, color buffer all sentinel. -/
def c1Source : TextCanvas := (mkCanvas 1 1).setColor sampleColor

/-- Inverted, colorized canvas with a painted cell, used to witness that
`fill` ignores inverted mode and leaves the other state alone. -/
def c10Canvas : TextCanvas := (((mkCanvas 1 1).setColor sampleColor).setPixel 1 1 true).invert

/-- A small colorized canvas with some text and a pixel, used to witness the
serialization-shape theorem on a concrete input. -/
def c5WitnessCanvas : TextCanvas :=
  ((((mkCanvas 2 2).setColor sampleColor).setPixel 0 0 true).drawText "hi" 0 1)

/-! ## Claim C3 -/

/-- C3: for every canvas and every coordinate outside the screen bounds,
`get_pixel` returns the distinguishable no-value result (`none`) and
`set_pixel` returns the canvas completely unchanged (no pixel-, color- or
text-buffer entry is altered). -/
theorem C3_out_of_bounds_safety (c : TextCanvas) (x y : Int) (state : Bool)
    (h : c.checkScreenBounds x y = false) :
    c.getPixel x y = none ∧ c.setPixel x y state = c := by
  refine ⟨?_, ?_⟩
  · unfold TextCanvas.getPixel
    rw [h]
    simp
  · unfold TextCanvas.setPixel
    rw [h]
    simp

/-- Witness for C3 at a concrete out-of-bounds input. -/
theorem C3_out_of_bounds_safety_witness :
    (mkCanvas 3 2).checkScreenBounds (-1) 5 = false ∧
    ((mkCanvas 3 2).getPixel (-1) 5 = none ∧
      (mkCanvas 3 2).setPixel (-1) 5 true = mkCanvas 3 2) :=
  ⟨by decide, C3_out_of_bounds_safety (mkCanvas 3 2) (-1) 5 true (by decide)⟩

/-! ## Claim C6 -/

/-- C6: the Braille encoding is a total deterministic function on all 256
blocks; its code point is the base `0x2800` plus the sum of the offset
values of the on pixels, the all-off block encodes to exactly the base,
the all-on block to base + `0xFF`, and every result lies inside the
Braille Patterns block. -/
theorem C6_braille_encoding :
    (∀ pb : PixelBlock,
      (pixelBlockToBrailleChar pb).toNat = BRAILLE_UNICODE_0 + blockOffsetSum pb ∧
      BRAILLE_UNICODE_0 ≤ (pixelBlockToBrailleChar pb).toNat ∧
      (pixelBlockToBrailleChar pb).toNat ≤ BRAILLE_UNICODE_0 + 0xFF) ∧
    pixelBlockToBrailleChar ((false, false), (false, false), (false, false), (false, false)) =
      Char.ofNat BRAILLE_UNICODE_0 ∧
    pixelBlockToBrailleChar ((true, true), (true, true), (true, true), (true, true)) =
      Char.ofNat (BRAILLE_UNICODE_0 + 0xFF) := by
  refine ⟨?_, by decide, by decide⟩
  set_option maxRecDepth 4096 in decide


/-! ## Helper lemmas about 1D and 2D reads and writes -/

theorem getD_set_self {α : Type} (l : List α) (i : Nat) (v d : α) (h : i < l.length) :
    (l.set i v).getD i d = v := by
  rw [List.getD_eq_getElem?_getD, List.getElem?_set_self h]
  rfl

theorem getD_set_ne {α : Type} (l : List α) (i j : Nat) (v d : α) (h : i ≠ j) :
    (l.set i v).getD j d = l.getD j d := by
  rw [List.getD_eq_getElem?_getD, List.getElem?_set_ne h, ← List.getD_eq_getElem?_getD]

theorem getD_of_ge {α : Type} (l : List α) (i : Nat) (d : α) (h : l.length ≤ i) :
    l.getD i d = d := by
  rw [List.getD_eq_getElem?_getD, List.getElem?_eq_none h]
  rfl

theorem length_set2 {α : Type} (m : List (List α)) (i j : Nat) (v : α) :
    (set2 m i j v).length = m.length := by
  unfold set2
  exact List.length_set m i _

theorem getD_set2_row_length {α : Type} (m : List (List α)) (i j k : Nat) (v : α) :
    ((set2 m i j v).getD k []).length = (m.getD k []).length := by
  unfold set2
  by_cases hik : i = k
  · subst hik
    by_cases hl : i < m.length
    · rw [getD_set_self _ _ _ _ hl, List.length_set]
    · rw [List.set_eq_of_length_le (by omega)]
  · rw [getD_set_ne _ _ _ _ _ hik]

theorem get2_set2_self {α : Type} (m : List (List α)) (i j : Nat) (v d : α)
    (hi : i < m.length) (hj : j < (m.getD i []).length) :
    get2 (set2 m i j v) i j d = v := by
  unfold get2 set2
  rw [getD_set_self _ _ _ _ hi]
  exact getD_set_self _ _ _ _ hj

theorem get2_set2_ne {α : Type} (m : List (List α)) (i j i' j' : Nat) (v d : α)
    (h : i ≠ i' ∨ j ≠ j') :
    get2 (set2 m i j v) i' j' d = get2 m i' j' d := by
  unfold get2 set2
  by_cases hii : i = i'
  · subst hii
    have hj : j ≠ j' := h.resolve_left (by simp)
    by_cases hl : i < m.length
    · rw [getD_set_self _ _ _ _ hl, getD_set_ne _ _ _ _ _ hj]
    · rw [List.set_eq_of_length_le (by omega)]
  · rw [getD_set_ne _ _ _ _ _ hii]

/-- A true entry stays true across any write of `true`, and across any write
elsewhere. -/
theorem get2_set2_preserve {α : Type} (m : List (List α)) (i j i' j' : Nat) (v d : α)
    (h : get2 m i' j' d = v) :
    get2 (set2 m i j v) i' j' d = v := by
  by_cases hij : i = i' ∧ j = j'
  · obtain ⟨hi, hj⟩ := hij
    subst hi
    subst hj
    by_cases hl : i < m.length
    · by_cases hjl : j < (m.getD i []).length
      · exact get2_set2_self m i j v d hl hjl
      · unfold get2 set2
        rw [getD_set_self _ _ _ _ hl, List.set_eq_of_length_le (by omega)]
        exact h
    · unfold set2
      rw [List.set_eq_of_length_le (by omega)]
      exact h
  · rw [get2_set2_ne m i j i' j' v d (by tauto)]
    exact h

theorem grid2Sized_row {α : Type} {m : List (List α)} {h w : Nat}
    (hs : grid2Sized m h w) (i : Nat) (hi : i < h) : (m.getD i []).length = w := by
  have hl : i < m.length := hs.1 ▸ hi
  rw [List.getD_eq_getElem?_getD, List.getElem?_eq_getElem hl]
  exact hs.2 _ (List.getElem_mem hl)

theorem grid2Sized_set2 {α : Type} {m : List (List α)} {h w : Nat}
    (hs : grid2Sized m h w) (i j : Nat) (v : α) : grid2Sized (set2 m i j v) h w := by
  refine ⟨by rw [length_set2]; exact hs.1, ?_⟩
  intro row hr
  by_cases hi : i < m.length
  · unfold set2 at hr
    rcases List.mem_or_eq_of_mem_set hr with h1 | h2
    · exact hs.2 _ h1
    · subst h2
      rw [List.length_set, List.getD_eq_getElem?_getD, List.getElem?_eq_getElem hi]
      exact hs.2 _ (List.getElem_mem hi)
  · unfold set2 at hr
    rw [List.set_eq_of_length_le (by omega)] at hr
    exact hs.2 _ hr

/-! ## Behaviour of `set_pixel` -/

theorem checkScreenBounds_iff (c : TextCanvas) (x y : Int) :
    c.checkScreenBounds x y = true ↔
      0 ≤ x ∧ x < (c.screen.width : Int) ∧ 0 ≤ y ∧ y < (c.screen.height : Int) := by
  unfold TextCanvas.checkScreenBounds
  simp [Bool.and_eq_true, and_assoc]

/-- Fields of the canvas other than the two pixel-related buffers are never
touched by `set_pixel`. -/
theorem setPixel_frame (c : TextCanvas) (x y : Int) (s : Bool) :
    (c.setPixel x y s).screen = c.screen ∧
    (c.setPixel x y s).output = c.output ∧
    (c.setPixel x y s).isInverted = c.isInverted ∧
    (c.setPixel x y s).textBuffer = c.textBuffer ∧
    (c.setPixel x y s).color = c.color := by
  unfold TextCanvas.setPixel TextCanvas.colorPixel TextCanvas.decolorPixel
  split
  · exact ⟨rfl, rfl, rfl, rfl, rfl⟩
  · split
    · split
      · exact ⟨rfl, rfl, rfl, rfl, rfl⟩
      · exact ⟨rfl, rfl, rfl, rfl, rfl⟩
    · exact ⟨rfl, rfl, rfl, rfl, rfl⟩

/-- An in-bounds `set_pixel` writes the effective state into the pixel buffer. -/
theorem setPixel_buffer_of_inBounds (c : TextCanvas) (x y : Int) (s : Bool)
    (h : c.checkScreenBounds x y = true) :
    (c.setPixel x y s).buffer = set2 c.buffer y.toNat x.toNat (c.effectiveState s) := by
  unfold TextCanvas.setPixel TextCanvas.colorPixel TextCanvas.decolorPixel
  rw [h]
  simp only [Bool.not_true, Bool.false_eq_true, if_false]
  split
  · split
    · rfl
    · rfl
  · rfl

/-- An in-bounds `set_pixel` on a colorized canvas writes into the color
buffer of the owning output cell: the draw color when the effective state is
on, the sentinel when it is off. -/
theorem setPixel_colorBuffer_of_inBounds (c : TextCanvas) (x y : Int) (s : Bool)
    (h : c.checkScreenBounds x y = true) (hcol : c.isColorized = true) :
    (c.setPixel x y s).colorBuffer =
      set2 c.colorBuffer (y.toNat / 4) (x.toNat / 2)
        (if c.effectiveState s then c.color else Color.new) := by
  unfold TextCanvas.setPixel TextCanvas.colorPixel TextCanvas.decolorPixel
  rw [h, hcol]
  simp only [Bool.not_true, Bool.false_eq_true, if_false, if_true]
  split
  · rfl
  · rfl

/-- `set_pixel` never touches the color buffer of a non-colorized canvas. -/
theorem setPixel_colorBuffer_of_not_colorized (c : TextCanvas) (x y : Int) (s : Bool)
    (hcol : c.isColorized = false) :
    (c.setPixel x y s).colorBuffer = c.colorBuffer := by
  unfold TextCanvas.setPixel
  split
  · rfl
  · rw [hcol]
    simp only [Bool.false_eq_true, if_false]

theorem setPixel_bufferSized {c : TextCanvas} (x y : Int) (s : Bool)
    (h : c.bufferSized) : (c.setPixel x y s).bufferSized := by
  unfold TextCanvas.bufferSized at *
  have hs := (setPixel_frame c x y s).1
  rw [hs]
  unfold TextCanvas.setPixel TextCanvas.colorPixel TextCanvas.decolorPixel
  split
  · exact h
  · split
    · split
      · exact grid2Sized_set2 h _ _ _
      · exact grid2Sized_set2 h _ _ _
    · exact grid2Sized_set2 h _ _ _

/-! ## Claim C2 -/

/-- C2: on a colorized canvas, an in-bounds `set_pixel` whose effective
written state is `false` resets the owning output cell's color entry to the
no-color sentinel — unconditionally, whatever the other pixels of that cell
hold — and an effective `true` write sets that entry to the current draw
color. -/
theorem C2_set_pixel_color_reset (c : TextCanvas) (x y : Int) (state : Bool)
    (hb : c.checkScreenBounds x y = true)
    (hcol : c.isColorized = true)
    (hcs : c.colorSized) (hdims : c.dimsOk) :
    get2 (c.setPixel x y state).colorBuffer (y.toNat / 4) (x.toNat / 2) Color.new =
      (if c.effectiveState state then c.color else Color.new) := by
  rw [setPixel_colorBuffer_of_inBounds c x y state hb hcol]
  obtain ⟨hx0, hxw, hy0, hyh⟩ := (checkScreenBounds_iff c x y).1 hb
  obtain ⟨hdw, hdh⟩ := hdims
  have hi : y.toNat / 4 < c.output.height := by
    rw [Nat.div_lt_iff_lt_mul (by omega)]
    omega
  have hj : x.toNat / 2 < (c.colorBuffer.getD (y.toNat / 4) []).length := by
    rw [grid2Sized_row hcs _ hi, Nat.div_lt_iff_lt_mul (by omega)]
    omega
  exact get2_set2_self _ _ _ _ _ (hcs.1 ▸ hi) hj

/-- Witness for C2 at pixel (0, 0) of `c2Canvas`, whose output cell still has
pixel (1, 1) on. -/
theorem C2_set_pixel_color_reset_witness :
    (c2Canvas.checkScreenBounds 0 0 = true ∧ c2Canvas.isColorized = true ∧
      c2Canvas.getPixel 1 1 = some true) ∧
    get2 (c2Canvas.setPixel 0 0 false).colorBuffer ((0 : Int).toNat / 4)
        ((0 : Int).toNat / 2) Color.new =
      (if c2Canvas.effectiveState false then c2Canvas.color else Color.new) :=
  ⟨⟨by decide, by decide, by decide⟩,
    C2_set_pixel_color_reset c2Canvas 0 0 false (by decide) (by decide) (by decide) (by decide)⟩

/-! ## Claim C9 -/

/-- An in-bounds `set_pixel` leaves the pixel holding the effective state. -/
theorem getPixel_setPixel_self (c : TextCanvas) (x y : Int) (s : Bool)
    (hb : c.checkScreenBounds x y = true) (hbs : c.bufferSized) :
    (c.setPixel x y s).getPixel x y = some (c.effectiveState s) := by
  obtain ⟨hx0, hxw, hy0, hyh⟩ := (checkScreenBounds_iff c x y).1 hb
  have hscreen := (setPixel_frame c x y s).1
  unfold TextCanvas.getPixel
  have hb' : (c.setPixel x y s).checkScreenBounds x y = true := by
    unfold TextCanvas.checkScreenBounds
    rw [hscreen]
    exact hb
  rw [hb', setPixel_buffer_of_inBounds c x y s hb]
  have hi : y.toNat < c.buffer.length := by
    rw [hbs.1]
    omega
  have hj : x.toNat < (c.buffer.getD y.toNat []).length := by
    rw [grid2Sized_row hbs _ (by omega)]
    omega
  rw [get2_set2_self _ _ _ _ _ hi hj]
  simp

/-- C9: in inverted mode the color side effect of `set_pixel` follows the
post-inversion effective state: on a colorized inverted canvas an in-bounds
`set_pixel(x, y, true)` turns the pixel off and resets the owning cell's
color entry to the no-color sentinel, while `set_pixel(x, y, false)` turns
the pixel on and paints that cell with the current draw color. -/
theorem C9_inverted_color_follows_effective_state (c : TextCanvas) (x y : Int)
    (hb : c.checkScreenBounds x y = true)
    (hinv : c.isInverted = true)
    (hcol : c.isColorized = true)
    (hbs : c.bufferSized) (hcs : c.colorSized) (hdims : c.dimsOk) :
    ((c.setPixel x y true).getPixel x y = some false ∧
      get2 (c.setPixel x y true).colorBuffer (y.toNat / 4) (x.toNat / 2) Color.new =
        Color.new) ∧
    ((c.setPixel x y false).getPixel x y = some true ∧
      get2 (c.setPixel x y false).colorBuffer (y.toNat / 4) (x.toNat / 2) Color.new =
        c.color) := by
  have heff : ∀ s : Bool, c.effectiveState s = !s := by
    intro s
    unfold TextCanvas.effectiveState
    rw [hinv]
    rfl
  refine ⟨⟨?_, ?_⟩, ?_, ?_⟩
  · rw [getPixel_setPixel_self c x y true hb hbs, heff true]
    simp
  · rw [C2_set_pixel_color_reset c x y true hb hcol hcs hdims, heff true]
    rfl
  · rw [getPixel_setPixel_self c x y false hb hbs, heff false]
    simp
  · rw [C2_set_pixel_color_reset c x y false hb hcol hcs hdims, heff false]
    rfl

/-- Witness for C9 on `c9Canvas` at (0, 0). -/
theorem C9_inverted_color_follows_effective_state_witness :
    ((c9Canvas.setPixel 0 0 true).getPixel 0 0 = some false ∧
      get2 (c9Canvas.setPixel 0 0 true).colorBuffer ((0 : Int).toNat / 4)
        ((0 : Int).toNat / 2) Color.new = Color.new) ∧
    ((c9Canvas.setPixel 0 0 false).getPixel 0 0 = some true ∧
      get2 (c9Canvas.setPixel 0 0 false).colorBuffer ((0 : Int).toNat / 4)
        ((0 : Int).toNat / 2) Color.new = c9Canvas.color) :=
  C9_inverted_color_follows_effective_state c9Canvas 0 0
    (by decide) (by decide) (by decide) (by decide) (by decide) (by decide)

/-! ## Folds of unconditional `true` writes (for `fill` and line fast paths) -/

theorem foldl_set2_true_preserve (l : List (Nat × Nat)) :
    ∀ (b : List (List Bool)) (x y : Nat), get2 b y x false = true →
      get2 (l.foldl (fun b xy => set2 b xy.2 xy.1 true) b) y x false = true := by
  induction l with
  | nil => intro b x y h; exact h
  | cons a t IH =>
    intro b x y h
    rw [List.foldl_cons]
    exact IH _ _ _ (get2_set2_preserve _ _ _ _ _ _ _ h)

theorem foldl_set2_true_mem (l : List (Nat × Nat)) :
    ∀ (b : List (List Bool)) (x y : Nat), (x, y) ∈ l →
      y < b.length → x < (b.getD y []).length →
      get2 (l.foldl (fun b xy => set2 b xy.2 xy.1 true) b) y x false = true := by
  induction l with
  | nil =>
    intro b x y h
    simp at h
  | cons a t IH =>
    intro b x y hmem hi hj
    rw [List.foldl_cons]
    rcases List.mem_cons.mp hmem with he | ht
    · cases he
      exact foldl_set2_true_preserve t _ _ _ (get2_set2_self b y x true false hi hj)
    · refine IH _ _ _ ht ?_ ?_
      · rw [length_set2]
        exact hi
      · rw [getD_set2_row_length]
        exact hj

/-! ## Claim C10 -/

/-- C10: `fill` turns every in-bounds screen pixel on — bypassing
`set_pixel`, hence unaffected by inverted mode — and leaves the color
buffer, the text buffer, the current draw color and the inverted flag
exactly as they were. -/
theorem C10_fill_effect (c : TextCanvas) (hbs : c.bufferSized) :
    (∀ x y : Int, c.checkScreenBounds x y = true → c.fill.getPixel x y = some true) ∧
    c.fill.colorBuffer = c.colorBuffer ∧
    c.fill.textBuffer = c.textBuffer ∧
    c.fill.color = c.color ∧
    c.fill.isInverted = c.isInverted := by
  refine ⟨?_, rfl, rfl, rfl, rfl⟩
  intro x y hb
  obtain ⟨hx0, hxw, hy0, hyh⟩ := (checkScreenBounds_iff c x y).1 hb
  have hb' : c.fill.checkScreenBounds x y = true := hb
  unfold TextCanvas.getPixel
  rw [hb']
  have hmain : get2 (c.iterBuffer.foldl (fun b xy => set2 b xy.2 xy.1 true) c.buffer)
      y.toNat x.toNat false = true := by
    refine foldl_set2_true_mem _ _ _ _ ?_ ?_ ?_
    · unfold TextCanvas.iterBuffer
      rw [List.mem_flatMap]
      exact ⟨y.toNat, List.mem_range.mpr (by omega),
        List.mem_map.mpr ⟨x.toNat, List.mem_range.mpr (by omega), rfl⟩⟩
    · rw [hbs.1]
      omega
    · rw [grid2Sized_row hbs _ (by omega)]
      omega
  show (if True then some (get2 (c.iterBuffer.foldl (fun b xy => set2 b xy.2 xy.1 true)
    c.buffer) y.toNat x.toNat false) else none) = some true
  rw [if_pos trivial, hmain]

/-- Witness for C10 on an inverted, colorized canvas with a painted cell. -/
theorem C10_fill_effect_witness :
    c10Canvas.fill.getPixel 0 0 = some true ∧
    c10Canvas.fill.colorBuffer = c10Canvas.colorBuffer ∧
    c10Canvas.fill.textBuffer = c10Canvas.textBuffer ∧
    c10Canvas.fill.color = c10Canvas.color ∧
    c10Canvas.fill.isInverted = c10Canvas.isInverted :=
  ⟨(C10_fill_effect c10Canvas (by decide)).1 0 0 (by decide),
   (C10_fill_effect c10Canvas (by decide)).2.1,
   (C10_fill_effect c10Canvas (by decide)).2.2.1,
   (C10_fill_effect c10Canvas (by decide)).2.2.2.1,
   (C10_fill_effect c10Canvas (by decide)).2.2.2.2⟩

/-! ## Claim C8 -/

/-- C8: on a fresh 5×1 canvas with the no-color draw color,
`draw_text("bar", 1, 0)` yields text row `["", "b", "a", "r", ""]`; a
further `draw_text("  ", 2, 0)` erases (spaces blank the cells), while
`merge_text("  ", 2, 0)` instead leaves the `"a"` and `"r"` cells untouched. -/
theorem C8_text_draw_vs_merge_spaces :
    ((mkCanvas 5 1).drawText "bar" 1 0).textBuffer = [["", "b", "a", "r", ""]] ∧
    (((mkCanvas 5 1).drawText "bar" 1 0).drawText "  " 2 0).textBuffer =
      [["", "b", "", "", ""]] ∧
    (((mkCanvas 5 1).drawText "bar" 1 0).mergeText "  " 2 0).textBuffer =
      [["", "b", "a", "r", ""]] := by
  refine ⟨?_, ?_, ?_⟩ <;> decide

/-! ## Claim C1 -/

theorem get2_false_of_all_false (m : List (List Bool))
    (h : ∀ row ∈ m, ∀ p ∈ row, p = false) (i j : Nat) : get2 m i j false = false := by
  unfold get2
  by_cases hi : i < m.length
  · have hrow : m.getD i [] = m[i] := by
      rw [List.getD_eq_getElem?_getD, List.getElem?_eq_getElem hi]
      rfl
    rw [hrow]
    by_cases hj : j < m[i].length
    · rw [List.getD_eq_getElem?_getD, List.getElem?_eq_getElem hj]
      exact h _ (List.getElem_mem hi) _ (List.getElem_mem hj)
    · exact getD_of_ge _ _ _ (by omega)
  · have hrow : m.getD i [] = [] := getD_of_ge _ _ _ (by omega)
    rw [hrow]
    rfl

/-- In merge mode a source pixel that is off produces no pixel copy, hence
no color copy either: one compositing step leaves the destination color
buffer untouched. -/
theorem compositePixelStep_colorBuffer_merge_off (self source : TextCanvas)
    (offsetX offsetY : Int) (xy : Nat × Nat)
    (hoff : get2 source.buffer xy.2 xy.1 false = false) :
    (TextCanvas.compositePixelStep self source offsetX offsetY true xy).colorBuffer =
      self.colorBuffer := by
  unfold TextCanvas.compositePixelStep
  split
  · have hcopy : TextCanvas.compositeCopyStep self source offsetX offsetY true xy = self := by
      unfold TextCanvas.compositeCopyStep
      rw [hoff]
      rfl
    rw [hcopy]
    unfold TextCanvas.compositeTextStep
    split
    · split
      · rfl
      · rfl
    · rfl
  · rfl

theorem foldl_compositeStep_colorBuffer_merge_off (source : TextCanvas)
    (offsetX offsetY : Int)
    (hoff : ∀ row ∈ source.buffer, ∀ p ∈ row, p = false) (l : List (Nat × Nat)) :
    ∀ self : TextCanvas,
      (l.foldl (fun s xy => TextCanvas.compositePixelStep s source offsetX offsetY true xy)
        self).colorBuffer = self.colorBuffer := by
  induction l with
  | nil => intro self; rfl
  | cons a t IH =>
    intro self
    rw [List.foldl_cons, IH]
    exact compositePixelStep_colorBuffer_merge_off self source offsetX offsetY a
      (get2_false_of_all_false source.buffer hoff a.2 a.1)

/-- C1 counterexample: a colorized all-off source merged onto a colorized
destination whose cell is painted. The claim says the destination entry of
the covered cell must become the source's entry (the no-color sentinel)
"regardless of whether the source pixel is on or off"; the code leaves the
destination entry painted, because in merge mode the color copy sits inside
the pixel-on condition. -/
theorem C1_merge_color_copy_counterexample :
    c1Source.isColorized = true ∧
    c1Dest.checkScreenBounds (0 + (0 : Int)) (0 + (0 : Int)) = true ∧
    get2 c1Source.buffer 0 0 false = false ∧
    get2 (c1Dest.mergeCanvas c1Source 0 0).colorBuffer 0 0 Color.new = sampleColor ∧
    get2 c1Source.colorBuffer 0 0 Color.new = Color.new ∧
    ¬ get2 (c1Dest.mergeCanvas c1Source 0 0).colorBuffer 0 0 Color.new =
        get2 c1Source.colorBuffer 0 0 Color.new := by
  decide

/-- C1 amended: in merge mode the color copy happens only alongside an
actual "pixel was on" copy; consequently merging a colorized source whose
pixels are all off leaves the destination color buffer entirely unchanged. -/
theorem C1_merge_color_only_with_pixel_copy (self source : TextCanvas) (dx dy : Int)
    (hcol : self.isColorized = true)
    (hoff : ∀ row ∈ source.buffer, ∀ p ∈ row, p = false) :
    (self.mergeCanvas source dx dy).colorBuffer = self.colorBuffer := by
  unfold TextCanvas.mergeCanvas TextCanvas.drawCanvasOntoCanvas
  rw [foldl_compositeStep_colorBuffer_merge_off source dx dy hoff _]
  unfold TextCanvas.compositeInit
  rw [hcol]
  simp only [Bool.not_true, Bool.false_and, Bool.false_eq_true, if_false]
  split
  · rfl
  · rfl

/-- Witness for the amended C1 on the concrete counterexample canvases. -/
theorem C1_merge_color_only_with_pixel_copy_witness :
    (c1Dest.mergeCanvas c1Source 0 0).colorBuffer = c1Dest.colorBuffer :=
  C1_merge_color_only_with_pixel_copy c1Dest c1Source 0 0 (by decide) (by decide)

/-! ## Claim C4 -/

/-- C4: for `sides < 3` both n-gon operations fail with the invalid-argument
error before drawing anything, returning the canvas exactly as it was; for
`sides ≥ 3` no invalid-argument error is raised. -/
theorem C4_ngon_invalid_sides (c : TextCanvas) (sides : Int) (vertices : List (Int × Int)) :
    (sides < 3 →
      c.strokeNgon sides vertices =
        (c, some ("Minimum 3 sides needed to draw an n-gon, but only " ++ intRepr sides ++
          " requested.")) ∧
      c.fillNgon sides vertices =
        (c, some ("Minimum 3 sides needed to draw an n-gon, but only " ++ intRepr sides ++
          " requested."))) ∧
    (3 ≤ sides →
      (c.strokeNgon sides vertices).2 = none ∧ (c.fillNgon sides vertices).2 = none) := by
  constructor
  · intro h
    constructor
    · unfold TextCanvas.strokeNgon TextCanvas.ngon
      rw [if_pos h]
    · unfold TextCanvas.fillNgon TextCanvas.ngon
      rw [if_pos h]
  · intro h
    have hn : ¬sides < 3 := by omega
    constructor
    · unfold TextCanvas.strokeNgon TextCanvas.ngon
      rw [if_neg hn]
      cases vertices
      · rfl
      · rfl
    · unfold TextCanvas.fillNgon TextCanvas.ngon
      rw [if_neg hn]
      cases vertices
      · rfl
      · rfl

/-- Witness for C4 with `sides = 2` (fails, canvas untouched) and
`sides = 3` (no error). -/
theorem C4_ngon_invalid_sides_witness :
    ((mkCanvas 1 1).strokeNgon 2 [(0, 0), (1, 1), (0, 1)] =
      ((mkCanvas 1 1), some ("Minimum 3 sides needed to draw an n-gon, but only " ++
        intRepr 2 ++ " requested.")) ∧
     (mkCanvas 1 1).fillNgon 2 [(0, 0), (1, 1), (0, 1)] =
      ((mkCanvas 1 1), some ("Minimum 3 sides needed to draw an n-gon, but only " ++
        intRepr 2 ++ " requested."))) ∧
    (((mkCanvas 1 1).strokeNgon 3 [(0, 0), (1, 1), (0, 1)]).2 = none ∧
     ((mkCanvas 1 1).fillNgon 3 [(0, 0), (1, 1), (0, 1)]).2 = none) :=
  ⟨(C4_ngon_invalid_sides (mkCanvas 1 1) 2 [(0, 0), (1, 1), (0, 1)]).1 (by decide),
   (C4_ngon_invalid_sides (mkCanvas 1 1) 3 [(0, 0), (1, 1), (0, 1)]).2 (by decide)⟩

/-! ## Claim C7 — preliminaries -/

theorem effectiveState_true_of_not_inverted (c : TextCanvas) (hinv : c.isInverted = false) :
    c.effectiveState true = true := by
  unfold TextCanvas.effectiveState
  rw [hinv]
  rfl

/-- On a non-inverted canvas, `set_pixel(_, _, true)` never turns a pixel off:
any pixel already reading `true` still reads `true`. -/
theorem getPixel_true_setPixel_preserve (c : TextCanvas) (x y X Y : Int)
    (hinv : c.isInverted = false) (h : c.getPixel X Y = some true) :
    (c.setPixel x y true).getPixel X Y = some true := by
  by_cases hbxy : c.checkScreenBounds x y = true
  · have hscr := (setPixel_frame c x y true).1
    unfold TextCanvas.getPixel at h ⊢
    by_cases hb : c.checkScreenBounds X Y = true
    · have hb' : (c.setPixel x y true).checkScreenBounds X Y = true := by
        unfold TextCanvas.checkScreenBounds at hb ⊢
        rw [hscr]
        exact hb
      rw [hb, if_pos rfl] at h
      rw [hb', if_pos rfl, setPixel_buffer_of_inBounds c x y true hbxy,
        effectiveState_true_of_not_inverted c hinv]
      exact congrArg some (get2_set2_preserve _ _ _ _ _ _ _ (Option.some_inj.mp h))
    · rw [eq_false_of_ne_true hb] at h
      exact absurd h (by simp)
  · have hf : c.checkScreenBounds x y = false := eq_false_of_ne_true hbxy
    have hsame : c.setPixel x y true = c := by
      unfold TextCanvas.setPixel
      rw [hf]
      rfl
    rw [hsame]
    exact h

/-- Folding unconditional on-writes preserves the inverted flag, the screen
surface, and the buffer sizing. -/
theorem foldl_setPixelPts_frame (ps : List (Int × Int)) :
    ∀ c : TextCanvas,
      (ps.foldl (fun c p => c.setPixel p.1 p.2 true) c).isInverted = c.isInverted ∧
      (ps.foldl (fun c p => c.setPixel p.1 p.2 true) c).screen = c.screen ∧
      (c.bufferSized → (ps.foldl (fun c p => c.setPixel p.1 p.2 true) c).bufferSized) := by
  induction ps with
  | nil => intro c; exact ⟨rfl, rfl, fun h => h⟩
  | cons a t IH =>
    intro c
    rw [List.foldl_cons]
    obtain ⟨h1, h2, h3⟩ := IH (c.setPixel a.1 a.2 true)
    refine ⟨?_, ?_, ?_⟩
    · rw [h1, (setPixel_frame c a.1 a.2 true).2.2.1]
    · rw [h2, (setPixel_frame c a.1 a.2 true).1]
    · intro hbs
      exact h3 (setPixel_bufferSized _ _ _ hbs)

/-- Folding unconditional on-writes (non-inverted) preserves any pixel that
already reads `true`. -/
theorem foldl_setPixelPts_preserve (ps : List (Int × Int)) :
    ∀ (c : TextCanvas) (X Y : Int), c.isInverted = false → c.getPixel X Y = some true →
      (ps.foldl (fun c p => c.setPixel p.1 p.2 true) c).getPixel X Y = some true := by
  induction ps with
  | nil => intro c X Y _ h; exact h
  | cons a t IH =>
    intro c X Y hinv h
    rw [List.foldl_cons]
    refine IH _ X Y ?_ ?_
    · rw [(setPixel_frame c a.1 a.2 true).2.2.1]
      exact hinv
    · exact getPixel_true_setPixel_preserve c a.1 a.2 X Y hinv h

/-- Folding unconditional on-writes (non-inverted) over a point list turns
every in-bounds listed pixel on. -/
theorem foldl_setPixelPts_mem (ps : List (Int × Int)) :
    ∀ (c : TextCanvas) (X Y : Int), c.isInverted = false → c.bufferSized →
      c.checkScreenBounds X Y = true → (X, Y) ∈ ps →
      (ps.foldl (fun c p => c.setPixel p.1 p.2 true) c).getPixel X Y = some true := by
  induction ps with
  | nil =>
    intro c X Y _ _ _ h
    simp at h
  | cons a t IH =>
    intro c X Y hinv hbs hb hmem
    rw [List.foldl_cons]
    rcases List.mem_cons.mp hmem with he | ht
    · cases he
      refine foldl_setPixelPts_preserve t _ X Y ?_ ?_
      · rw [(setPixel_frame c X Y true).2.2.1]
        exact hinv
      · rw [getPixel_setPixel_self c X Y true hb hbs,
          effectiveState_true_of_not_inverted c hinv]
    · refine IH _ X Y ?_ ?_ ?_ ht
      · rw [(setPixel_frame c a.1 a.2 true).2.2.1]
        exact hinv
      · exact setPixel_bufferSized _ _ _ hbs
      · unfold TextCanvas.checkScreenBounds at hb ⊢
        rw [(setPixel_frame c a.1 a.2 true).1]
        exact hb

/-- Integers from `a` to `b` are members of the inclusive range. -/
theorem mem_rangeIncl (a b t : Int) (h1 : a ≤ t) (h2 : t ≤ b) : t ∈ rangeIncl a b := by
  have ht : t = a + ((t - a).toNat : Int) := by omega
  rw [ht]
  unfold rangeIncl
  exact List.mem_map_of_mem _
    (List.mem_range.mpr (show (t - a).toNat < (b + 1 - a).toNat by omega))

/-- Every pixel already on (non-inverted) stays on through the Bresenham
loop, whenever the loop reaches a `break`. -/
theorem bresenhamLoop_preserve_true (x2 y2 sx sy dx dy : Int) :
    ∀ (fuel : Nat) (c : TextCanvas) (x1 y1 error : Int) (X Y : Int) (r : TextCanvas),
      c.isInverted = false → c.getPixel X Y = some true →
      TextCanvas.bresenhamLoop x2 y2 sx sy dx dy fuel c x1 y1 error = some r →
      r.getPixel X Y = some true := by
  intro fuel
  induction fuel with
  | zero =>
    intro c x1 y1 error X Y r _ _ heq
    exact absurd heq (by simp [TextCanvas.bresenhamLoop])
  | succ n IH =>
    intro c x1 y1 error X Y r hinv htrue heq
    simp only [TextCanvas.bresenhamLoop] at heq
    split at heq
    · injection heq with h
      rw [← h]
      exact getPixel_true_setPixel_preserve c x1 y1 X Y hinv htrue
    · split at heq
      · injection heq with h
        rw [← h]
        exact getPixel_true_setPixel_preserve c x1 y1 X Y hinv htrue
      · split at heq
        · injection heq with h
          rw [← h]
          exact getPixel_true_setPixel_preserve c x1 y1 X Y hinv htrue
        · refine IH _ _ _ _ X Y r ?_ ?_ heq
          · rw [(setPixel_frame c x1 y1 true).2.2.1]
            exact hinv
          · exact getPixel_true_setPixel_preserve c x1 y1 X Y hinv htrue

/-- The very first `set_pixel` of the Bresenham loop plots the start point,
and it stays on in the loop's result. -/
theorem bresenhamLoop_start_true (x2 y2 sx sy dx dy : Int) (fuel : Nat) (c : TextCanvas)
    (x1 y1 error : Int) (r : TextCanvas)
    (hinv : c.isInverted = false) (hbs : c.bufferSized)
    (hb : c.checkScreenBounds x1 y1 = true)
    (heq : TextCanvas.bresenhamLoop x2 y2 sx sy dx dy (fuel + 1) c x1 y1 error = some r) :
    r.getPixel x1 y1 = some true := by
  have hself : (c.setPixel x1 y1 true).getPixel x1 y1 = some true := by
    rw [getPixel_setPixel_self c x1 y1 true hb hbs, effectiveState_true_of_not_inverted c hinv]
  simp only [TextCanvas.bresenhamLoop] at heq
  split at heq
  · injection heq with h
    rw [← h]
    exact hself
  · split at heq
    · injection heq with h
      rw [← h]
      exact hself
    · split at heq
      · injection heq with h
        rw [← h]
        exact hself
      · refine bresenhamLoop_preserve_true x2 y2 sx sy dx dy fuel _ _ _ _ x1 y1 r ?_ hself heq
        rw [(setPixel_frame c x1 y1 true).2.2.1]
        exact hinv

/-- Invariant of the general-case Bresenham loop. With `D = |x2 - x1| > 0`,
`B = |y2 - y1| > 0`, after `a` x-steps and `b` y-steps the loop state is
`x1 = X2 - sx * (D - a)`, `y1 = Y2 - sy * (B - b)` and
`error = D - B - a * B + b * D`; from any such state the loop reaches its
final `break` exactly at `(X2, Y2)` — the two inner safety `break`s never
fire — within `(D - a) + (B - b) + 1` iterations, and the end pixel is on in
the result. -/
theorem bresenhamLoop_reaches_end (X2 Y2 sx sy : Int) (D B : Nat)
    (hD : 0 < D) (hB : 0 < B) (hsx : sx = 1 ∨ sx = -1) (hsy : sy = 1 ∨ sy = -1) :
    ∀ (fuel : Nat) (a b : Nat) (c : TextCanvas) (x1 y1 error : Int),
      c.isInverted = false → c.bufferSized → c.checkScreenBounds X2 Y2 = true →
      a ≤ D → b ≤ B →
      x1 = X2 - sx * ((D : Int) - (a : Int)) →
      y1 = Y2 - sy * ((B : Int) - (b : Int)) →
      error = (D : Int) - (B : Int) - (a : Int) * (B : Int) + (b : Int) * (D : Int) →
      (D - a) + (B - b) < fuel →
      ∃ r, TextCanvas.bresenhamLoop X2 Y2 sx sy (D : Int) (-(B : Int)) fuel c x1 y1 error
          = some r ∧ r.getPixel X2 Y2 = some true := by
  intro fuel
  induction fuel with
  | zero =>
    intro a b c x1 y1 error _ _ _ _ _ _ _ _ hf
    omega
  | succ n IH =>
    intro a b c x1 y1 error hinv hbs hbnd ha hb hx hy herr hf
    have hDi : (1 : Int) ≤ (D : Int) := by exact_mod_cast hD
    have hBi : (1 : Int) ≤ (B : Int) := by exact_mod_cast hB
    have hxeq : (x1 = X2) ↔ (a = D) := by
      subst hx
      constructor
      · intro hh
        rcases hsx with h | h <;> rw [h] at hh <;> omega
      · intro hh
        rw [hh]
        simp
    have hyeq : (y1 = Y2) ↔ (b = B) := by
      subst hy
      constructor
      · intro hh
        rcases hsy with h | h <;> rw [h] at hh <;> omega
      · intro hh
        rw [hh]
        simp
    have hinv' : (c.setPixel x1 y1 true).isInverted = false := by
      rw [(setPixel_frame c x1 y1 true).2.2.1]
      exact hinv
    have hbs' := setPixel_bufferSized x1 y1 true hbs
    have hbnd' : (c.setPixel x1 y1 true).checkScreenBounds X2 Y2 = true := by
      unfold TextCanvas.checkScreenBounds at hbnd ⊢
      rw [(setPixel_frame c x1 y1 true).1]
      exact hbnd
    by_cases haD : a = D
    · by_cases hbB : b = B
      · -- Top break: the end point is reached; plot it and stop.
        refine ⟨c.setPixel x1 y1 true, ?_, ?_⟩
        · simp only [TextCanvas.bresenhamLoop]
          rw [if_pos ⟨hxeq.mpr haD, hyeq.mpr hbB⟩]
        · rw [hxeq.mpr haD, hyeq.mpr hbB,
            getPixel_setPixel_self c X2 Y2 true hbnd hbs,
            effectiveState_true_of_not_inverted c hinv]
      · -- x1 has arrived, y1 not yet: only the y-branch fires.
        have hblt : b < B := Nat.lt_of_le_of_ne hb hbB
        have hbi : (b : Int) + 1 ≤ (B : Int) := by exact_mod_cast hblt
        have he2 : 2 * error < -(B : Int) := by
          rw [herr, haD]
          have key : 2 * (D : Int) * ((b : Int) + 1) ≤ 2 * (D : Int) * (B : Int) :=
            mul_le_mul_of_nonneg_left hbi (by linarith)
          nlinarith [key]
        have hle : 2 * error ≤ (D : Int) := by omega
        have hx2T := eq_true (hxeq.mpr haD)
        have hy2F := eq_false (fun hh => hbB (hyeq.mp hh))
        have hgeF := eq_false (not_le.mpr he2)
        have hleT := eq_true hle
        obtain ⟨r, hr, hrp⟩ := IH a (b + 1) (c.setPixel x1 y1 true) x1 (y1 + sy)
          (error + (D : Int)) hinv' hbs' hbnd' ha (by omega) hx
          (by rw [hy]; push_cast; ring) (by rw [herr]; push_cast; ring) (by omega)
        refine ⟨r, ?_, hrp⟩
        simp only [TextCanvas.bresenhamLoop, ge_iff_le, hx2T, hy2F, hgeF, hleT,
          true_and, and_true, false_and, and_false, if_true, if_false, add_zero]
        exact hr
    · have halt : a < D := Nat.lt_of_le_of_ne ha haD
      have hai : (a : Int) + 1 ≤ (D : Int) := by exact_mod_cast halt
      by_cases hbB : b = B
      · -- y1 has arrived, x1 not yet: only the x-branch fires.
        have he2 : (D : Int) < 2 * error := by
          rw [herr, hbB]
          have key : 2 * (B : Int) * ((a : Int) + 1) ≤ 2 * (B : Int) * (D : Int) :=
            mul_le_mul_of_nonneg_left hai (by linarith)
          nlinarith [key]
        have hge : -(B : Int) ≤ 2 * error := by omega
        have hx2F := eq_false (fun hh => haD (hxeq.mp hh))
        have hy2T := eq_true (hyeq.mpr hbB)
        have hgeT := eq_true hge
        have hleF := eq_false (not_le.mpr he2)
        obtain ⟨r, hr, hrp⟩ := IH (a + 1) b (c.setPixel x1 y1 true) (x1 + sx) y1
          (error + -(B : Int)) hinv' hbs' hbnd' (by omega) hb
          (by rw [hx]; push_cast; ring) hy (by rw [herr]; push_cast; ring) (by omega)
        refine ⟨r, ?_, hrp⟩
        simp only [TextCanvas.bresenhamLoop, ge_iff_le, hx2F, hy2T, hgeT, hleF,
          true_and, and_true, false_and, and_false, if_true, if_false, add_zero]
        exact hr
      · -- Neither coordinate has arrived: whichever branches fire step it closer.
        have hblt : b < B := Nat.lt_of_le_of_ne hb hbB
        have hx2F := eq_false (fun hh => haD (hxeq.mp hh))
        have hy2F := eq_false (fun hh => hbB (hyeq.mp hh))
        by_cases hge : -(B : Int) ≤ 2 * error
        · by_cases hle : 2 * error ≤ (D : Int)
          · obtain ⟨r, hr, hrp⟩ := IH (a + 1) (b + 1) (c.setPixel x1 y1 true) (x1 + sx)
              (y1 + sy) (error + -(B : Int) + (D : Int)) hinv' hbs' hbnd' (by omega) (by omega)
              (by rw [hx]; push_cast; ring) (by rw [hy]; push_cast; ring)
              (by rw [herr]; push_cast; ring) (by omega)
            refine ⟨r, ?_, hrp⟩
            simp only [TextCanvas.bresenhamLoop, ge_iff_le, hx2F, hy2F, eq_true hge,
              eq_true hle, true_and, and_true, false_and, and_false, if_true, if_false]
            exact hr
          · obtain ⟨r, hr, hrp⟩ := IH (a + 1) b (c.setPixel x1 y1 true) (x1 + sx) y1
              (error + -(B : Int)) hinv' hbs' hbnd' (by omega) hb
              (by rw [hx]; push_cast; ring) hy (by rw [herr]; push_cast; ring) (by omega)
            refine ⟨r, ?_, hrp⟩
            simp only [TextCanvas.bresenhamLoop, ge_iff_le, hx2F, hy2F, eq_true hge,
              eq_false hle, true_and, and_true, false_and, and_false, if_true, if_false,
              add_zero]
            exact hr
        · have hle : 2 * error ≤ (D : Int) := by omega
          obtain ⟨r, hr, hrp⟩ := IH a (b + 1) (c.setPixel x1 y1 true) x1 (y1 + sy)
            (error + (D : Int)) hinv' hbs' hbnd' ha (by omega) hx
            (by rw [hy]; push_cast; ring) (by rw [herr]; push_cast; ring) (by omega)
          refine ⟨r, ?_, hrp⟩
          simp only [TextCanvas.bresenhamLoop, ge_iff_le, hx2F, hy2F, eq_false hge,
            eq_true hle, true_and, and_true, false_and, and_false, if_true, if_false,
            add_zero]
          exact hr

/-- C7: on a non-inverted canvas, for all endpoints within screen bounds,
`stroke_line` terminates — in the general case the Bresenham loop reaches
its `break` within the supplied fuel, witnessed by the loop returning
`some` — and leaves both endpoint pixels on, covering the vertical,
horizontal, general and degenerate (start = end, a single pixel) cases. -/
theorem C7_stroke_line_endpoints (c : TextCanvas) (x1 y1 x2 y2 : Int)
    (hinv : c.isInverted = false) (hbs : c.bufferSized)
    (h1 : c.checkScreenBounds x1 y1 = true) (h2 : c.checkScreenBounds x2 y2 = true) :
    (x2 - x1 ≠ 0 → y2 - y1 ≠ 0 →
      (TextCanvas.bresenhamLoop x2 y2 (if x1 < x2 then 1 else -1) (if y1 < y2 then 1 else -1)
        |x2 - x1| (-|y2 - y1|) ((x2 - x1).natAbs + (y2 - y1).natAbs + 1) c x1 y1
        (|x2 - x1| + -|y2 - y1|)).isSome = true) ∧
    (c.strokeLine x1 y1 x2 y2).getPixel x1 y1 = some true ∧
    (c.strokeLine x1 y1 x2 y2).getPixel x2 y2 = some true := by
  unfold TextCanvas.strokeLine TextCanvas.bresenhamLine
  by_cases hdx : x2 - x1 = 0
  · rw [if_pos hdx]
    refine ⟨fun h _ => absurd hdx h, ?_, ?_⟩
    · have hmem := foldl_setPixelPts_mem
        ((rangeIncl (min y1 y2) (max y1 y2)).map (fun y => (x1, y))) c x1 y1 hinv hbs h1
        (List.mem_map_of_mem _ (mem_rangeIncl _ _ _ (by omega) (by omega)))
      simp only [List.foldl_map] at hmem
      exact hmem
    · have hx21 : x2 = x1 := by omega
      rw [hx21] at h2 ⊢
      have hmem := foldl_setPixelPts_mem
        ((rangeIncl (min y1 y2) (max y1 y2)).map (fun y => (x1, y))) c x1 y2 hinv hbs h2
        (List.mem_map_of_mem _ (mem_rangeIncl _ _ _ (by omega) (by omega)))
      simp only [List.foldl_map] at hmem
      exact hmem
  · by_cases hdy : y2 - y1 = 0
    · rw [if_neg hdx, if_pos hdy]
      refine ⟨fun _ h => absurd hdy h, ?_, ?_⟩
      · have hmem := foldl_setPixelPts_mem
          ((rangeIncl (min x1 x2) (max x1 x2)).map (fun x => (x, y1))) c x1 y1 hinv hbs h1
          (List.mem_map_of_mem _ (mem_rangeIncl _ _ _ (by omega) (by omega)))
        simp only [List.foldl_map] at hmem
        exact hmem
      · have hy21 : y2 = y1 := by omega
        rw [hy21] at h2 ⊢
        have hmem := foldl_setPixelPts_mem
          ((rangeIncl (min x1 x2) (max x1 x2)).map (fun x => (x, y1))) c x2 y1 hinv hbs h2
          (List.mem_map_of_mem _ (mem_rangeIncl _ _ _ (by omega) (by omega)))
        simp only [List.foldl_map] at hmem
        exact hmem
    · rw [if_neg hdx, if_neg hdy]
      have hD : 0 < (x2 - x1).natAbs := by omega
      have hB : 0 < (y2 - y1).natAbs := by omega
      have hsx : (if x1 < x2 then (1 : Int) else -1) = 1 ∨
          (if x1 < x2 then (1 : Int) else -1) = -1 := by
        by_cases h : x1 < x2
        · left
          rw [if_pos h]
        · right
          rw [if_neg h]
      have hsy : (if y1 < y2 then (1 : Int) else -1) = 1 ∨
          (if y1 < y2 then (1 : Int) else -1) = -1 := by
        by_cases h : y1 < y2
        · left
          rw [if_pos h]
        · right
          rw [if_neg h]
      obtain ⟨r, hr, hrp⟩ := bresenhamLoop_reaches_end x2 y2
        (if x1 < x2 then (1 : Int) else -1) (if y1 < y2 then (1 : Int) else -1)
        (x2 - x1).natAbs (y2 - y1).natAbs hD hB hsx hsy
        ((x2 - x1).natAbs + (y2 - y1).natAbs + 1) 0 0 c x1 y1
        (|x2 - x1| + -|y2 - y1|) hinv hbs h2 (by omega) (by omega)
        (by
          by_cases h : x1 < x2
          · rw [if_pos h]
            omega
          · rw [if_neg h]
            omega)
        (by
          by_cases h : y1 < y2
          · rw [if_pos h]
            omega
          · rw [if_neg h]
            omega)
        (by
          rw [Int.abs_eq_natAbs (x2 - x1), Int.abs_eq_natAbs (y2 - y1)]
          push_cast
          ring)
        (by omega)
      rw [Int.abs_eq_natAbs (x2 - x1), Int.abs_eq_natAbs (y2 - y1)] at hr ⊢
      rw [hr]
      refine ⟨fun _ _ => rfl, ?_, hrp⟩
      exact bresenhamLoop_start_true x2 y2 _ _ _ _ _ c x1 y1 _ r hinv hbs h1 hr

/-- Witness for C7: a general-case diagonal from (0, 0) to (3, 7) on a 2×2
canvas leaves both endpoints on. -/
theorem C7_stroke_line_endpoints_witness :
    ((mkCanvas 2 2).strokeLine 0 0 3 7).getPixel 0 0 = some true ∧
    ((mkCanvas 2 2).strokeLine 0 0 3 7).getPixel 3 7 = some true :=
  ⟨(C7_stroke_line_endpoints (mkCanvas 2 2) 0 0 3 7
      (by decide) (by decide) (by decide) (by decide)).2.1,
   (C7_stroke_line_endpoints (mkCanvas 2 2) 0 0 3 7
      (by decide) (by decide) (by decide) (by decide)).2.2⟩

/-! ## Claim C5 — ANSI scanner lemmas -/

theorem stripAnsiSt_nil (st : Bool) : stripAnsiSt st [] = [] := by cases st <;> rfl

theorem stripAnsiSt_true_cons (ch : Char) (l : List Char) :
    stripAnsiSt true (ch :: l) =
      if ch = 'm' then stripAnsiSt false l else stripAnsiSt true l := rfl

theorem stripAnsiSt_false_cons (ch : Char) (l : List Char) :
    stripAnsiSt false (ch :: l) =
      if ch = '\x1b' then stripAnsiSt true l else ch :: stripAnsiSt false l := rfl

theorem ansiOkSt_nil (st : Bool) : ansiOkSt st [] = !st := by cases st <;> rfl

theorem ansiOkSt_true_cons (ch : Char) (l : List Char) :
    ansiOkSt true (ch :: l) =
      if ch = 'm' then ansiOkSt false l else ansiOkSt true l := rfl

theorem ansiOkSt_false_cons (ch : Char) (l : List Char) :
    ansiOkSt false (ch :: l) =
      if ch = '\x1b' then ansiOkSt true l else ansiOkSt false l := rfl

/-- Inside an escape, everything up to the terminating `m` is consumed. -/
theorem escBody (l : List Char) :
    ∀ r : List Char, 'm' ∉ l →
      stripAnsiSt true (l ++ 'm' :: r) = stripAnsiSt false r ∧
      ansiOkSt true (l ++ 'm' :: r) = ansiOkSt false r := by
  induction l with
  | nil =>
    intro r _
    rw [List.nil_append, stripAnsiSt_true_cons, if_pos rfl, ansiOkSt_true_cons, if_pos rfl]
    exact ⟨rfl, rfl⟩
  | cons ch t IH =>
    intro r hm
    have hch : ch ≠ 'm' := fun hh => hm (hh ▸ List.mem_cons_self ch t)
    have hmt : 'm' ∉ t := fun hh => hm (List.mem_cons_of_mem ch hh)
    rw [List.cons_append, stripAnsiSt_true_cons, if_neg hch, ansiOkSt_true_cons, if_neg hch]
    exact IH r hmt

/-- A chunk whose escapes are all closed strips independently of what
follows it. -/
theorem stripAnsiSt_append_of_ok (a : List Char) :
    ∀ (st : Bool) (b : List Char), ansiOkSt st a = true →
      stripAnsiSt st (a ++ b) = stripAnsiSt st a ++ stripAnsiSt false b := by
  induction a with
  | nil =>
    intro st b hok
    have hst : st = false := by
      cases st
      · rfl
      · exact absurd hok (by decide)
    rw [hst, List.nil_append, stripAnsiSt_nil, List.nil_append]
  | cons ch t IH =>
    intro st b hok
    cases st
    · rw [ansiOkSt_false_cons] at hok
      rw [List.cons_append, stripAnsiSt_false_cons, stripAnsiSt_false_cons]
      by_cases hch : ch = '\x1b'
      · rw [if_pos hch, if_pos hch]
        rw [if_pos hch] at hok
        exact IH true b hok
      · rw [if_neg hch, if_neg hch, List.cons_append]
        rw [if_neg hch] at hok
        exact congrArg (ch :: ·) (IH false b hok)
    · rw [ansiOkSt_true_cons] at hok
      rw [List.cons_append, stripAnsiSt_true_cons, stripAnsiSt_true_cons]
      by_cases hch : ch = 'm'
      · rw [if_pos hch, if_pos hch]
        rw [if_pos hch] at hok
        exact IH false b hok
      · rw [if_neg hch, if_neg hch]
        rw [if_neg hch] at hok
        exact IH true b hok

theorem ansiOkSt_append (a : List Char) :
    ∀ (st : Bool) (b : List Char), ansiOkSt st a = true → ansiOkSt false b = true →
      ansiOkSt st (a ++ b) = true := by
  induction a with
  | nil =>
    intro st b hok hb
    have hst : st = false := by
      cases st
      · rfl
      · exact absurd hok (by decide)
    rw [hst, List.nil_append]
    exact hb
  | cons ch t IH =>
    intro st b hok hb
    cases st
    · rw [ansiOkSt_false_cons] at hok
      rw [List.cons_append, ansiOkSt_false_cons]
      by_cases hch : ch = '\x1b'
      · rw [if_pos hch]
        rw [if_pos hch] at hok
        exact IH true b hok hb
      · rw [if_neg hch]
        rw [if_neg hch] at hok
        exact IH false b hok hb
    · rw [ansiOkSt_true_cons] at hok
      rw [List.cons_append, ansiOkSt_true_cons]
      by_cases hch : ch = 'm'
      · rw [if_pos hch]
        rw [if_pos hch] at hok
        exact IH false b hok hb
      · rw [if_neg hch]
        rw [if_neg hch] at hok
        exact IH true b hok hb

/-! ## Claim C5 — escape bodies are plain characters -/

theorem plain_mem {l : List Char} (h : plainAnsiChars l = true) {ch : Char} (hm : ch ∈ l) :
    ch ≠ '\x1b' ∧ ch ≠ 'm' ∧ ch ≠ '\n' := by
  unfold plainAnsiChars at h
  have hh := List.all_eq_true.mp h ch hm
  simp only [Bool.and_eq_true, Bool.not_eq_eq_eq_not, Bool.not_true, decide_eq_false_iff_not]
    at hh
  exact ⟨hh.1.1, hh.1.2, hh.2⟩

theorem plain_append {a b : List Char} (ha : plainAnsiChars a = true)
    (hb : plainAnsiChars b = true) : plainAnsiChars (a ++ b) = true := by
  unfold plainAnsiChars at *
  rw [List.all_append, ha, hb]
  rfl

theorem plain_count_newline {l : List Char} (h : plainAnsiChars l = true) :
    l.count '\n' = 0 :=
  List.count_eq_zero.mpr (fun hm => (plain_mem h hm).2.2 rfl)

theorem plain_not_mem_m {l : List Char} (h : plainAnsiChars l = true) : 'm' ∉ l :=
  fun hm => (plain_mem h hm).2.1 rfl

theorem digitChar_plain (n : Nat) : plainAnsiChars [digitChar n] = true := by
  have h10 : n % 10 = 0 ∨ n % 10 = 1 ∨ n % 10 = 2 ∨ n % 10 = 3 ∨ n % 10 = 4 ∨ n % 10 = 5 ∨
      n % 10 = 6 ∨ n % 10 = 7 ∨ n % 10 = 8 ∨ n % 10 = 9 := by omega
  unfold digitChar
  rcases h10 with h | h | h | h | h | h | h | h | h | h <;> rw [h] <;> decide

theorem natReprAux_plain : ∀ fuel n : Nat, plainAnsiChars (natReprAux fuel n) = true := by
  intro fuel
  induction fuel with
  | zero => intro n; rfl
  | succ f IH =>
    intro n
    unfold natReprAux
    split
    · exact digitChar_plain n
    · exact plain_append (IH (n / 10)) (digitChar_plain (n % 10))

theorem intRepr_plain (n : Int) : plainAnsiChars (intRepr n).data = true := by
  unfold intRepr natRepr
  split
  · exact plain_append (by decide) (natReprAux_plain _ _)
  · exact natReprAux_plain _ _

/-- A single well-formed escape sequence strips to nothing, closes its
escape, and contains no newline. -/
theorem seq_facts_of_single (l body : List Char)
    (hl : l = '\x1b' :: '[' :: (body ++ ['m'])) (hbody : plainAnsiChars body = true) :
    stripAnsiSt false l = [] ∧ ansiOkSt false l = true ∧ l.count '\n' = 0 := by
  subst hl
  have hm : 'm' ∉ ('[' :: body) := by
    intro hmem
    rcases List.mem_cons.mp hmem with h | h
    · exact absurd h (by decide)
    · exact plain_not_mem_m hbody h
  have hassoc : '[' :: (body ++ ['m']) = ('[' :: body) ++ 'm' :: ([] : List Char) := by
    simp
  have hesc := escBody ('[' :: body) [] hm
  refine ⟨?_, ?_, ?_⟩
  · rw [stripAnsiSt_false_cons, if_pos rfl, hassoc, hesc.1]
    rfl
  · rw [ansiOkSt_false_cons, if_pos rfl, hassoc, hesc.2]
    rfl
  · rw [List.count_cons, List.count_cons, List.count_append, plain_count_newline hbody]
    simp

/-- Two chained escape sequences (the foreground-and-background case) strip
to nothing, close their escapes, and contain no newline. -/
theorem seq_facts_of_double (l body1 body2 : List Char)
    (hl : l = '\x1b' :: '[' :: (body1 ++ ('m' :: '\x1b' :: '[' :: (body2 ++ ['m']))))
    (h1 : plainAnsiChars body1 = true) (h2 : plainAnsiChars body2 = true) :
    stripAnsiSt false l = [] ∧ ansiOkSt false l = true ∧ l.count '\n' = 0 := by
  subst hl
  have hm1 : 'm' ∉ ('[' :: body1) := by
    intro hmem
    rcases List.mem_cons.mp hmem with h | h
    · exact absurd h (by decide)
    · exact plain_not_mem_m h1 h
  have hassoc : '[' :: (body1 ++ ('m' :: '\x1b' :: '[' :: (body2 ++ ['m']))) =
      ('[' :: body1) ++ 'm' :: ('\x1b' :: '[' :: (body2 ++ ['m'])) := by
    simp
  have hesc := escBody ('[' :: body1) ('\x1b' :: '[' :: (body2 ++ ['m'])) hm1
  have hrest := seq_facts_of_single ('\x1b' :: '[' :: (body2 ++ ['m'])) body2 rfl h2
  refine ⟨?_, ?_, ?_⟩
  · rw [stripAnsiSt_false_cons, if_pos rfl, hassoc, hesc.1]
    exact hrest.1
  · rw [ansiOkSt_false_cons, if_pos rfl, hassoc, hesc.2]
    exact hrest.2.1
  · rw [List.count_cons, List.count_cons, List.count_append, plain_count_newline h1]
    rw [List.count_cons, List.count_cons, List.count_cons, List.count_append,
      plain_count_newline h2]
    simp

theorem formatDisplayAttributes_plain (col : Color) :
    plainAnsiChars (col.formatDisplayAttributes).data = true := by
  obtain ⟨m, crgb, bgrgb, c4, bg4, c8, bg8, b1, b2, b3⟩ := col
  cases b1 <;> cases b2 <;> cases b3 <;> rfl

theorem plain_str_append {a b : String} (ha : plainAnsiChars a.data = true)
    (hb : plainAnsiChars b.data = true) : plainAnsiChars (a ++ b).data = true := by
  rw [String.data_append]
  exact plain_append ha hb

/-- The escape sequence of a color whose color part is a single escape body. -/
theorem sequenceStr_facts_single (col : Color) (M : String)
    (hM : plainAnsiChars M.data = true)
    (hl : (col.sequenceStr).data =
      '\x1b' :: '[' :: (((col.formatDisplayAttributes).data ++ M.data) ++ ['m'])) :
    stripAnsiSt false (col.sequenceStr).data = [] ∧
    ansiOkSt false (col.sequenceStr).data = true ∧
    (col.sequenceStr).data.count '\n' = 0 :=
  seq_facts_of_single _ _ hl (plain_append (formatDisplayAttributes_plain col) hM)

/-- The escape sequence of a color with both a foreground and a background
part: two chained escapes. -/
theorem sequenceStr_facts_double (col : Color) (M1 M2 : String)
    (h1 : plainAnsiChars M1.data = true) (h2 : plainAnsiChars M2.data = true)
    (hl : (col.sequenceStr).data =
      '\x1b' :: '[' :: (((col.formatDisplayAttributes).data ++ M1.data) ++
        ('m' :: '\x1b' :: '[' :: (M2.data ++ ['m'])))) :
    stripAnsiSt false (col.sequenceStr).data = [] ∧
    ansiOkSt false (col.sequenceStr).data = true ∧
    (col.sequenceStr).data.count '\n' = 0 :=
  seq_facts_of_double _ _ _ hl (plain_append (formatDisplayAttributes_plain col) h1) h2

/-- Whatever the color value, its escape sequence strips to nothing, closes
all its escapes, and contains no newline. -/
theorem sequenceStr_facts (col : Color) :
    stripAnsiSt false (col.sequenceStr).data = [] ∧
    ansiOkSt false (col.sequenceStr).data = true ∧
    (col.sequenceStr).data.count '\n' = 0 := by
  obtain ⟨m, crgb, bgrgb, c4, bg4, c8, bg8, b1, b2, b3⟩ := col
  cases m with
  | noColor =>
    refine sequenceStr_facts_single _ "" (by decide) ?_
    simp [Color.sequenceStr, Color.hasColors, ESC, String.data_append]
  | color4bit =>
    rcases c4 with _ | n
    · rcases bg4 with _ | k
      · refine sequenceStr_facts_single _ ";" (by decide) ?_
        simp [Color.sequenceStr, Color.hasColors, Color.formatColors4bit, ESC,
          String.data_append]
      · refine sequenceStr_facts_single _ (";" ++ intRepr k)
          (plain_str_append (by decide) (intRepr_plain k)) ?_
        simp [Color.sequenceStr, Color.hasColors, Color.formatColors4bit, ESC,
          String.data_append]
    · rcases bg4 with _ | k
      · refine sequenceStr_facts_single _ (";" ++ intRepr n)
          (plain_str_append (by decide) (intRepr_plain n)) ?_
        simp [Color.sequenceStr, Color.hasColors, Color.formatColors4bit, ESC,
          String.data_append]
      · refine sequenceStr_facts_single _ (";" ++ intRepr n ++ ";" ++ intRepr k)
          (plain_str_append (plain_str_append (plain_str_append (by decide)
            (intRepr_plain n)) (by decide)) (intRepr_plain k)) ?_
        simp [Color.sequenceStr, Color.hasColors, Color.formatColors4bit, ESC,
          String.data_append]
  | color8bit =>
    rcases c8 with _ | n
    · rcases bg8 with _ | k
      · refine sequenceStr_facts_single _ ";" (by decide) ?_
        simp [Color.sequenceStr, Color.hasColors, Color.formatColors8bit, ESC,
          String.data_append]
      · refine sequenceStr_facts_single _ (";" ++ ("48;5;" ++ intRepr k))
          (plain_str_append (by decide) (plain_str_append (by decide) (intRepr_plain k))) ?_
        simp [Color.sequenceStr, Color.hasColors, Color.formatColors8bit, ESC,
          String.data_append]
    · rcases bg8 with _ | k
      · refine sequenceStr_facts_single _ (";" ++ ("38;5;" ++ intRepr n))
          (plain_str_append (by decide) (plain_str_append (by decide) (intRepr_plain n))) ?_
        simp [Color.sequenceStr, Color.hasColors, Color.formatColors8bit, ESC,
          String.data_append]
      · refine sequenceStr_facts_double _ (";" ++ ("38;5;" ++ intRepr n))
          ("48;5;" ++ intRepr k)
          (plain_str_append (by decide) (plain_str_append (by decide) (intRepr_plain n)))
          (plain_str_append (by decide) (intRepr_plain k)) ?_
        simp [Color.sequenceStr, Color.hasColors, Color.formatColors8bit, ESC,
          String.data_append]
  | colorRgb =>
    rcases crgb with _ | ⟨r, g, bb⟩
    · rcases bgrgb with _ | ⟨r2, g2, bb2⟩
      · refine sequenceStr_facts_single _ ";" (by decide) ?_
        simp [Color.sequenceStr, Color.hasColors, Color.formatColorsRgb, ESC,
          String.data_append]
      · refine sequenceStr_facts_single _
          (";" ++ ("48;2;" ++ intRepr r2 ++ ";" ++ intRepr g2 ++ ";" ++ intRepr bb2))
          (plain_str_append (by decide) (plain_str_append (plain_str_append
            (plain_str_append (plain_str_append (plain_str_append (by decide)
              (intRepr_plain r2)) (by decide)) (intRepr_plain g2)) (by decide))
              (intRepr_plain bb2))) ?_
        simp [Color.sequenceStr, Color.hasColors, Color.formatColorsRgb, ESC,
          String.data_append]
    · rcases bgrgb with _ | ⟨r2, g2, bb2⟩
      · refine sequenceStr_facts_single _
          (";" ++ ("38;2;" ++ intRepr r ++ ";" ++ intRepr g ++ ";" ++ intRepr bb))
          (plain_str_append (by decide) (plain_str_append (plain_str_append
            (plain_str_append (plain_str_append (plain_str_append (by decide)
              (intRepr_plain r)) (by decide)) (intRepr_plain g)) (by decide))
              (intRepr_plain bb))) ?_
        simp [Color.sequenceStr, Color.hasColors, Color.formatColorsRgb, ESC,
          String.data_append]
      · refine sequenceStr_facts_double _
          (";" ++ ("38;2;" ++ intRepr r ++ ";" ++ intRepr g ++ ";" ++ intRepr bb))
          ("48;2;" ++ intRepr r2 ++ ";" ++ intRepr g2 ++ ";" ++ intRepr bb2)
          (plain_str_append (by decide) (plain_str_append (plain_str_append
            (plain_str_append (plain_str_append (plain_str_append (by decide)
              (intRepr_plain r)) (by decide)) (intRepr_plain g)) (by decide))
              (intRepr_plain bb)))
          (plain_str_append (plain_str_append (plain_str_append (plain_str_append
            (plain_str_append (by decide) (intRepr_plain r2)) (by decide))
            (intRepr_plain g2)) (by decide)) (intRepr_plain bb2)) ?_
        simp [Color.sequenceStr, Color.hasColors, Color.formatColorsRgb, ESC,
          String.data_append]

theorem singleton_cellOk (ch : Char) (h1 : ch ≠ '\n') (h2 : ch ≠ '\x1b') :
    cellOk (String.singleton ch) := by
  unfold cellOk
  refine ⟨?_, ?_, ?_⟩
  · show ansiOkSt false [ch] = true
    rw [ansiOkSt_false_cons, if_neg h2]
    rfl
  · show List.count '\n' [ch] = 0
    rw [List.count_cons]
    simp [h1]
  · show (stripAnsiSt false [ch]).length = 1
    rw [stripAnsiSt_false_cons, if_neg h2]
    rfl

theorem format_singleton_cellOk (col : Color) (ch : Char)
    (h1 : ch ≠ '\n') (h2 : ch ≠ '\x1b') :
    cellOk (col.format (String.singleton ch)) := by
  unfold Color.format
  split
  · exact singleton_cellOk ch h1 h2
  · obtain ⟨hs1, hs2, hs3⟩ := sequenceStr_facts col
    have hdata : (col.sequenceStr ++ String.singleton ch ++ RESET).data =
        (col.sequenceStr).data ++ (ch :: RESET.data) := by
      rw [String.data_append, String.data_append, List.append_assoc]
      rfl
    unfold cellOk
    refine ⟨?_, ?_, ?_⟩
    · rw [hdata]
      refine ansiOkSt_append _ false _ hs2 ?_
      rw [ansiOkSt_false_cons, if_neg h2]
      decide
    · rw [hdata, List.count_append, hs3, List.count_cons]
      have hR : List.count '\n' RESET.data = 0 := by decide
      rw [hR]
      simp [h1]
    · rw [hdata, stripAnsiSt_append_of_ok _ false _ hs2, hs1, List.nil_append,
        stripAnsiSt_false_cons, if_neg h2]
      have hR : stripAnsiSt false RESET.data = [] := by decide
      rw [hR]
      rfl

theorem brailleChar_ne (pb : PixelBlock) :
    pixelBlockToBrailleChar pb ≠ '\n' ∧ pixelBlockToBrailleChar pb ≠ '\x1b' := by
  revert pb
  set_option maxRecDepth 8192 in decide

theorem get2_mem_or_default {α : Type} (m : List (List α)) (i j : Nat) (d : α) :
    get2 m i j d = d ∨ ∃ row ∈ m, get2 m i j d ∈ row := by
  unfold get2
  by_cases hi : i < m.length
  · have hrow : m.getD i [] = m[i] := by
      rw [List.getD_eq_getElem?_getD, List.getElem?_eq_getElem hi]
      rfl
    rw [hrow]
    by_cases hj : j < m[i].length
    · right
      refine ⟨m[i], List.getElem_mem hi, ?_⟩
      rw [List.getD_eq_getElem?_getD, List.getElem?_eq_getElem hj]
      exact List.getElem_mem hj
    · left
      exact getD_of_ge _ _ _ (by omega)
  · left
    have hrow : m.getD i [] = [] := getD_of_ge _ _ _ (by omega)
    rw [hrow]
    rfl

/-- Every cell string `to_string` can emit is well behaved, provided the
text-buffer entries are (empty or well behaved). -/
theorem cellStr_cellOk (c : TextCanvas)
    (htext : ∀ row ∈ c.textBuffer, ∀ e ∈ row, e = "" ∨ cellOk e) :
    ∀ (x y : Nat) (pb : PixelBlock), cellOk (c.cellStr x y pb) := by
  intro x y pb
  unfold TextCanvas.cellStr
  split
  · rename_i hne
    by_cases ht : c.isTextual = true
    · have hval : c.getTextChar x y = get2 c.textBuffer y x "" := by
        unfold TextCanvas.getTextChar
        rw [ht]
        rfl
      rw [hval] at hne ⊢
      rcases get2_mem_or_default c.textBuffer y x "" with hd | ⟨row, hrow, hmem⟩
      · exact absurd hd hne
      · rcases htext row hrow _ hmem with he | hok
        · exact absurd he hne
        · exact hok
    · have hval : c.getTextChar x y = "" := by
        unfold TextCanvas.getTextChar
        rw [eq_false_of_ne_true ht]
        rfl
      exact absurd hval hne
  · unfold TextCanvas.colorPixelChar
    split
    · exact format_singleton_cellOk _ _ (brailleChar_ne pb).1 (brailleChar_ne pb).2
    · exact singleton_cellOk _ (brailleChar_ne pb).1 (brailleChar_ne pb).2

theorem data_empty_str : ("" : String).data = ([] : List Char) := rfl

theorem data_newline_str : ("\n" : String).data = ['\n'] := rfl

theorem mod_succ_eq_zero_aux (i W : Nat) (h : i % W + 1 = W) : (i + 1) % W = 0 := by
  rcases Nat.eq_zero_or_pos W with h0 | hpos
  · subst h0
    simp [Nat.mod_zero] at h
  · by_cases h1 : W = 1
    · subst h1
      simp [Nat.mod_one]
    · have hW : 1 < W := Nat.lt_of_le_of_ne hpos (Ne.symm h1)
      rw [Nat.add_mod, Nat.mod_eq_of_lt hW, h, Nat.mod_self]

theorem mod_succ_eq_succ_aux (i W : Nat) (h : i % W + 1 < W) :
    (i + 1) % W = i % W + 1 := by
  have hW : 1 < W := lt_of_le_of_lt (Nat.le_add_left 1 (i % W)) h
  rw [Nat.add_mod, Nat.mod_eq_of_lt hW, Nat.mod_eq_of_lt h]

theorem add_lt_aux (a b W : Nat) (h : a + (b + 1) = W) (hb : 0 < b) : a + 1 < W := by
  omega

theorem add_shift_aux (a b W : Nat) (h : a + (b + 1) = W) : a + 1 + b = W := by
  omega

theorem splitLines_cons (ch : Char) (rest : List Char) :
    splitLines (ch :: rest) =
      if ch = '\n' then [] :: splitLines rest
      else
        match splitLines rest with
        | l :: ls => (ch :: l) :: ls
        | [] => [[ch]] := rfl

/-- Splitting at newlines peels off a newline-free prefix as one chunk. -/
theorem splitLines_append_newline :
    ∀ (a t : List Char), a.count '\n' = 0 →
      splitLines (a ++ '\n' :: t) = a :: splitLines t := by
  intro a
  induction a with
  | nil =>
    intro t h
    rw [List.nil_append, splitLines_cons, if_pos rfl]
  | cons ch a2 ih =>
    intro t h
    have hch : ch ≠ '\n' := by
      intro hEq
      rw [hEq, List.count_cons] at h
      simp at h
    have ha2 : a2.count '\n' = 0 := by
      rw [List.count_cons] at h
      exact Nat.eq_zero_of_add_eq_zero_right h
    rw [List.cons_append, splitLines_cons, if_neg hch, ih t ha2]

/-- Each rendered row (without its newline) has closed escapes, no newline
characters, and exactly one visible glyph per block. -/
theorem rowStrAux_facts (c : TextCanvas)
    (hcell : ∀ (x y : Nat) (pb : PixelBlock), cellOk (c.cellStr x y pb)) :
    ∀ (bs : List PixelBlock) (i : Nat),
      ansiOkSt false (c.rowStrAux bs i).data = true ∧
        (c.rowStrAux bs i).data.count '\n' = 0 ∧
        (stripAnsiSt false (c.rowStrAux bs i).data).length = bs.length := by
  intro bs
  induction bs with
  | nil =>
    intro i
    exact ⟨rfl, rfl, rfl⟩
  | cons pb rest ih =>
    intro i
    obtain ⟨h1, h2, h3⟩ := hcell (i % c.output.width) (i / c.output.width) pb
    obtain ⟨g1, g2, g3⟩ := ih (i + 1)
    have hdata : (c.rowStrAux (pb :: rest) i).data =
        (c.cellStr (i % c.output.width) (i / c.output.width) pb).data ++
          (c.rowStrAux rest (i + 1)).data := by
      rw [show c.rowStrAux (pb :: rest) i =
          c.cellStr (i % c.output.width) (i / c.output.width) pb ++
            c.rowStrAux rest (i + 1) from rfl, String.data_append]
    refine ⟨?_, ?_, ?_⟩
    · rw [hdata]
      exact ansiOkSt_append _ false _ h1 g1
    · rw [hdata, List.count_append, h2, g2]
    · rw [hdata, stripAnsiSt_append_of_ok _ false _ h1, List.length_append, h3, g3,
        List.length_cons]
      omega

/-- `to_string` emits one full output row as its cell strings followed by a
newline, then continues with the remaining blocks. -/
theorem toStringAux_row (c : TextCanvas) :
    ∀ (row rest : List PixelBlock) (i : Nat),
      0 < c.output.width →
      i % c.output.width + row.length = c.output.width →
      (c.toStringAux (row ++ rest) i).data =
        (c.rowStrAux row i).data ++
          '\n' :: (c.toStringAux rest (i + row.length)).data := by
  intro row
  induction row with
  | nil =>
    intro rest i hW h
    exfalso
    have hlt := Nat.mod_lt i hW
    simp only [List.length_nil, Nat.add_zero] at h
    rw [h] at hlt
    exact lt_irrefl _ hlt
  | cons pb row2 ih =>
    intro rest i hW h
    have hstep : c.toStringAux ((pb :: row2) ++ rest) i =
        c.cellStr (i % c.output.width) (i / c.output.width) pb ++
          (if (i + 1) % c.output.width = 0 then "\n" else "") ++
          c.toStringAux (row2 ++ rest) (i + 1) := rfl
    have hrstep : c.rowStrAux (pb :: row2) i =
        c.cellStr (i % c.output.width) (i / c.output.width) pb ++
          c.rowStrAux row2 (i + 1) := rfl
    cases row2 with
    | nil =>
      have hone : i % c.output.width + 1 = c.output.width := by
        simpa using h
      have hzero : (i + 1) % c.output.width = 0 := mod_succ_eq_zero_aux i _ hone
      rw [hstep, if_pos hzero, hrstep]
      simp [String.data_append, TextCanvas.rowStrAux, data_newline_str, data_empty_str,
        List.append_assoc]
    | cons pb2 row3 =>
      have hL : (pb :: pb2 :: row3).length = (pb2 :: row3).length + 1 := rfl
      rw [hL] at h
      have hlt := add_lt_aux _ _ _ h (Nat.succ_pos row3.length)
      have hmod : (i + 1) % c.output.width = i % c.output.width + 1 :=
        mod_succ_eq_succ_aux i _ hlt
      have hne : (i + 1) % c.output.width ≠ 0 := by
        rw [hmod]
        exact Nat.succ_ne_zero _
      have hnext : (i + 1) % c.output.width + (pb2 :: row3).length = c.output.width := by
        rw [hmod]
        exact add_shift_aux _ _ _ h
      have hrec := ih rest (i + 1) hW hnext
      have harg : i + (pb :: pb2 :: row3).length = i + 1 + (pb2 :: row3).length := by
        rw [hL]
        omega
      rw [hstep, if_neg hne, hrstep, harg, String.data_append, String.data_append,
        hrec, String.data_append]
      simp [data_empty_str, List.append_assoc]

/-- `to_string` over `k` full rows of blocks: `k` newlines, and splitting at
newlines yields `k` chunks (plus the empty trailing chunk), each stripping
to exactly `output.width` glyphs. -/
theorem toStringAux_rows (c : TextCanvas)
    (hcell : ∀ (x y : Nat) (pb : PixelBlock), cellOk (c.cellStr x y pb))
    (hW : 0 < c.output.width) :
    ∀ (k : Nat) (bs : List PixelBlock) (i : Nat),
      bs.length = k * c.output.width → i % c.output.width = 0 →
      (c.toStringAux bs i).data.count '\n' = k ∧
        ∃ ls, splitLines (c.toStringAux bs i).data = ls ++ [[]] ∧
          ls.length = k ∧
          ∀ l ∈ ls, (stripAnsiSt false l).length = c.output.width := by
  intro k
  induction k with
  | zero =>
    intro bs i hlen hi
    have hnil : bs = [] := List.eq_nil_of_length_eq_zero (by simpa using hlen)
    subst hnil
    refine ⟨rfl, [], rfl, rfl, ?_⟩
    intro l hl
    simp at hl
  | succ k ih =>
    intro bs i hlen hi
    have hWle : c.output.width ≤ bs.length := by
      rw [hlen, Nat.succ_mul]
      exact Nat.le_add_left _ _
    have htake : (bs.take c.output.width).length = c.output.width := by
      rw [List.length_take]
      exact Nat.min_eq_left hWle
    have hdrop : (bs.drop c.output.width).length = k * c.output.width := by
      rw [List.length_drop, hlen, Nat.succ_mul, Nat.add_sub_cancel]
    have hcomb : bs = bs.take c.output.width ++ bs.drop c.output.width :=
      (List.take_append_drop _ _).symm
    have hnexti : (i + (bs.take c.output.width).length) % c.output.width = 0 := by
      rw [htake, Nat.add_mod_right]
      exact hi
    obtain ⟨hc, ls2, hs2, hl2, ha2⟩ :=
      ih (bs.drop c.output.width) (i + (bs.take c.output.width).length) hdrop hnexti
    obtain ⟨r1, r2, r3⟩ := rowStrAux_facts c hcell (bs.take c.output.width) i
    have hdata : (c.toStringAux bs i).data =
        (c.rowStrAux (bs.take c.output.width) i).data ++
          '\n' :: (c.toStringAux (bs.drop c.output.width)
            (i + (bs.take c.output.width).length)).data := by
      conv_lhs => rw [hcomb]
      exact toStringAux_row c _ _ i hW (by rw [hi, htake, Nat.zero_add])
    refine ⟨?_, (c.rowStrAux (bs.take c.output.width) i).data :: ls2, ?_, ?_, ?_⟩
    · rw [hdata, List.count_append, r2, List.count_cons, hc]
      simp
    · rw [hdata, splitLines_append_newline _ _ r2, hs2, List.cons_append]
    · rw [List.length_cons, hl2]
    · intro l hl
      rcases List.mem_cons.mp hl with hEq | hmem
      · rw [hEq, r3, htake]
      · exact ha2 l hmem

theorem sum_map_const_aux (n : Nat) :
    ∀ (l : List Nat) (F : Nat → Nat), (∀ a, F a = n) → (l.map F).sum = l.length * n := by
  intro l
  induction l with
  | nil =>
    intro F h
    simp
  | cons a t ih =>
    intro F h
    rw [List.map_cons, List.sum_cons, ih F h, h a, List.length_cons, Nat.succ_mul,
      Nat.add_comm]

/-- The block iterator yields exactly one block per output cell. -/
theorem length_iterBufferByBlocksLrtb (c : TextCanvas)
    (hw : c.screen.width = 2 * c.output.width)
    (hh : c.screen.height = 4 * c.output.height) :
    c.iterBufferByBlocksLrtb.length = c.output.height * c.output.width := by
  unfold TextCanvas.iterBufferByBlocksLrtb stepRange
  rw [hw, hh]
  have h1 : (4 * c.output.height + 4 - 1) / 4 = c.output.height := by omega
  have h2 : (2 * c.output.width + 2 - 1) / 2 = c.output.width := by omega
  rw [h1, h2]
  rw [List.length_flatMap]
  refine Eq.trans (sum_map_const_aux c.output.width _ _ ?_) ?_
  · intro a
    simp [Function.comp]
  · simp [List.length_map, List.length_range]

/-- C5 (amended): for every canvas whose screen/output dimensions are in the
2×/4× constructor relation, whose output width is positive, and whose text
buffer holds only empty entries or well-behaved cells (closed escapes, no
newline, one visible glyph — which is what `draw_text`/`merge_text` store for
printable characters), `to_string` contains exactly `output.height` newlines
and splits at newlines into `output.height` lines (plus the empty trailing
chunk), each of exactly `output.width` glyphs once ANSI escapes are
disregarded. The original claim quantified over every canvas; text containing
a newline character breaks it (see the counterexample). -/
theorem C5_to_string_shape (c : TextCanvas) (hdims : c.dimsOk)
    (hW : 0 < c.output.width)
    (htext : ∀ row ∈ c.textBuffer, ∀ e ∈ row, e = "" ∨ cellOk e) :
    (c.toString).data.count '\n' = c.output.height ∧
      ∃ ls, splitLines (c.toString).data = ls ++ [[]] ∧
        ls.length = c.output.height ∧
        ∀ l ∈ ls, (stripAnsiSt false l).length = c.output.width := by
  obtain ⟨hw, hh⟩ := hdims
  have hlen := length_iterBufferByBlocksLrtb c hw hh
  have hcell := cellStr_cellOk c htext
  unfold TextCanvas.toString
  exact toStringAux_rows c hcell hW c.output.height c.iterBufferByBlocksLrtb 0 hlen
    (Nat.zero_mod _)

theorem C5_to_string_shape_witness :
    c5WitnessCanvas.dimsOk ∧ 0 < c5WitnessCanvas.output.width ∧
      (∀ row ∈ c5WitnessCanvas.textBuffer, ∀ e ∈ row, e = "" ∨ cellOk e) ∧
      ((c5WitnessCanvas.toString).data.count '\n' = c5WitnessCanvas.output.height ∧
        ∃ ls, splitLines (c5WitnessCanvas.toString).data = ls ++ [[]] ∧
          ls.length = c5WitnessCanvas.output.height ∧
          ∀ l ∈ ls, (stripAnsiSt false l).length = c5WitnessCanvas.output.width) :=
  ⟨by decide, by decide, by decide,
    C5_to_string_shape c5WitnessCanvas (by decide) (by decide) (by decide)⟩

/-- C5 (counterexample to the claim as stated): drawing the one-character
text "\n" on a 1×1 canvas stores a newline in the text buffer, and
`to_string` then emits two line terminators on a canvas of output height 1,
so the claim does not hold for every canvas. -/
theorem C5_newline_text_counterexample :
    ((mkCanvas 1 1).drawText "\n" 0 0).output.height = 1 ∧
      (((mkCanvas 1 1).drawText "\n" 0 0).toString).data.count '\n' = 2 := by
  decide
